import Mathlib

/-!
# Weighted streaming statistics for SQLite (`sqlite_wtd_stats.c`)

A shallow embedding of the four aggregates `wtd_freq`, `wtd_mean`, `wtd_var`
and `wtd_sd`: each is a step function that folds one row into an aggregate
context, and a finalize function that reads the context.

Conventions of the embedding.

* `double` arithmetic is exact: a finite double is a rational number. The only
  way the code can leave the finite numbers is a division by zero, so a second
  value `Dbl.nonfin` stands for every non-finite double (an infinity or a NaN).
* `i64` counters are integers. A counter only moves by `cnt++`; reaching the
  top of the `i64` range takes `2^63 - 1` accepted rows and is undefined
  behaviour in C, so the increment is modelled without wrap-around.
* The aggregate context of SQLite is `Option Ctx`: `none` is the state in which
  `sqlite3_aggregate_context(context, 0)` returns a null pointer (no step has
  run), and the first step allocates a zero-filled context.
* A finalize function returns `Option Dbl`: `none` when it calls no
  `sqlite3_result_*` function (SQL NULL), `some d` for `sqlite3_result_double`.
-/

namespace WtdStats

/-! ## Doubles in exact arithmetic -/

/-- A C `double` in exact arithmetic: a finite rational value, or a non-finite
value (infinity or NaN, not told apart). -/
inductive Dbl where
  | fin (q : ℚ)
  | nonfin
  deriving DecidableEq

namespace Dbl

/-- Addition of doubles: `a + b`. -/
def add : Dbl → Dbl → Dbl
  | fin a, fin b => fin (a + b)
  | _, _ => nonfin

/-- Subtraction of doubles: `a - b`. -/
def sub : Dbl → Dbl → Dbl
  | fin a, fin b => fin (a - b)
  | _, _ => nonfin

/-- Multiplication of doubles: `a * b`. -/
def mul : Dbl → Dbl → Dbl
  | fin a, fin b => fin (a * b)
  | _, _ => nonfin

/-- Division of doubles: `a / b`. A zero divisor gives a non-finite result
(an infinity, or NaN for `0/0`). A non-finite operand gives a non-finite
result; the one IEEE exception, a finite value divided by an infinity, does not
occur in this program, whose divisors are sums of finite weights or counters. -/
def div : Dbl → Dbl → Dbl
  | fin a, fin b => if b = 0 then nonfin else fin (a / b)
  | _, _ => nonfin

instance : Add Dbl := ⟨add⟩
instance : Sub Dbl := ⟨sub⟩
instance : Mul Dbl := ⟨mul⟩
instance : Div Dbl := ⟨div⟩

/-- Conversion of an `i64` to `double`, as in the C expression `p->cnt * d`. -/
def ofInt (i : Int) : Dbl := fin (i : ℚ)

end Dbl

/-! ## The host's values -/

/-- Modelled from the spec: the datatype code `SQLITE_INTEGER`. The five
codes come with the header `sqlite3ext.h`, which is not among the sources;
their values are those of the SQLite C interface. -/
def SQLITE_INTEGER : Int := 1

/-- Modelled from the spec: the datatype code `SQLITE_FLOAT`. -/
def SQLITE_FLOAT : Int := 2

/-- Modelled from the spec: the datatype code `SQLITE_TEXT`. -/
def SQLITE_TEXT : Int := 3

/-- Modelled from the spec: the datatype code `SQLITE_BLOB`. -/
def SQLITE_BLOB : Int := 4

/-- Modelled from the spec: the datatype code `SQLITE_NULL`, the one the
steps of `wtd_mean` and `wtd_var` compare against. -/
def SQLITE_NULL : Int := 5

/-- Modelled from the spec: the scalar a step receives (`sqlite3_value`, declared
in `sqlite3ext.h`, which is not among the sources). A value is seen through two
observations only, its datatype after numeric affinity and its conversion to
`double`, so it is kept as one of SQLite's five fundamental datatypes:
an integer; a finite float; a text or a blob that does not look like a number,
with the number `num` that `sqlite3_value_double` reads from it (`0` when it
starts with no number); or NULL. A text that looks like a number is converted
by numeric affinity and is an `integer` or a `float` here. -/
inductive sqlite3_value where
  | integer (i : Int)
  | float (r : ℚ)
  | text (num : ℚ)
  | blob (num : ℚ)
  | null
  deriving DecidableEq

/-- Modelled from the spec: `sqlite3_value_numeric_type`, the datatype code of
a value after numeric affinity has been applied. It is `SQLITE_NULL` on NULL
only, and never `0`. -/
def sqlite3_value_numeric_type : sqlite3_value → Int
  | .integer _ => SQLITE_INTEGER
  | .float _ => SQLITE_FLOAT
  | .text _ => SQLITE_TEXT
  | .blob _ => SQLITE_BLOB
  | .null => SQLITE_NULL

/-- The exact number that the conversion of a value to `double` yields; NULL
converts to `0.0`. -/
def numericValue : sqlite3_value → ℚ
  | .integer i => (i : ℚ)
  | .float r => r
  | .text num => num
  | .blob num => num
  | .null => 0

/-- Modelled from the spec: `sqlite3_value_double`, the conversion of a value
to `double`. -/
def sqlite3_value_double (v : sqlite3_value) : Dbl := Dbl.fin (numericValue v)

/-- The two arguments `argv[0]` (value) and `argv[1]` (weight) of a step of
`wtd_mean`, `wtd_var` and `wtd_sd`. -/
abbrev Row := sqlite3_value × sqlite3_value

/-! ## Weighted frequency -/

/-- The accumulator `struct FreqCtx`. -/
structure FreqCtx where
  sumWt : Dbl
  cnt : Int
  deriving DecidableEq

/-- The zero-filled `FreqCtx` that the first step allocates. -/
def FreqCtx.zero : FreqCtx := { sumWt := Dbl.fin 0, cnt := 0 }

/-- The step `wtdFreqStep`: the guard tests the datatype code itself as a C
truth value. -/
def wtdFreqStep (context : Option FreqCtx) (argv0 : sqlite3_value) : Option FreqCtx :=
  let p := context.getD FreqCtx.zero
  if sqlite3_value_numeric_type argv0 ≠ 0 then
    some { cnt := p.cnt + 1, sumWt := p.sumWt + sqlite3_value_double argv0 }
  else
    some p

/-- The finalize function `wtdFreqFinalize`. -/
def wtdFreqFinalize (context : Option FreqCtx) : Option Dbl :=
  match context with
  | some p => if p.cnt > 0 then some (Dbl.ofInt p.cnt * (p.sumWt / Dbl.ofInt p.cnt)) else none
  | none => none

/-! ## Weighted mean -/

/-- The accumulator `struct MeanCtx`. -/
structure MeanCtx where
  xSum : Dbl
  wtSum : Dbl
  cnt : Int
  deriving DecidableEq

/-- The zero-filled `MeanCtx` that the first step allocates. -/
def MeanCtx.zero : MeanCtx := { xSum := Dbl.fin 0, wtSum := Dbl.fin 0, cnt := 0 }

/-- The step `wtdMeanStep`. -/
def wtdMeanStep (context : Option MeanCtx) (argv : Row) : Option MeanCtx :=
  let p := context.getD MeanCtx.zero
  if SQLITE_NULL ≠ sqlite3_value_numeric_type argv.1 ∧
      SQLITE_NULL ≠ sqlite3_value_numeric_type argv.2 then
    let wt := sqlite3_value_double argv.2
    some { cnt := p.cnt + 1,
           xSum := p.xSum + sqlite3_value_double argv.1 * wt,
           wtSum := p.wtSum + wt }
  else
    some p

/-- The finalize function `wtdMeanFinalize`. -/
def wtdMeanFinalize (context : Option MeanCtx) : Option Dbl :=
  match context with
  | some p => if p.cnt > 0 then some (p.xSum / p.wtSum) else none
  | none => none

/-! ## Weighted variance and standard deviation -/

/-- The accumulator `struct VarCtx`. -/
structure VarCtx where
  rM : Dbl
  rS : Dbl
  wtSum : Dbl
  cnt : Int
  deriving DecidableEq

/-- The zero-filled `VarCtx` that the first step allocates. -/
def VarCtx.zero : VarCtx :=
  { rM := Dbl.fin 0, rS := Dbl.fin 0, wtSum := Dbl.fin 0, cnt := 0 }

/-- The step `wtdVarStep`, shared by `wtd_var` and `wtd_sd`; the assignments
are in the order of the source. -/
def wtdVarStep (context : Option VarCtx) (argv : Row) : Option VarCtx :=
  let p := context.getD VarCtx.zero
  if sqlite3_value_numeric_type argv.1 ≠ SQLITE_NULL ∧
      sqlite3_value_numeric_type argv.2 ≠ SQLITE_NULL then
    let x := sqlite3_value_double argv.1
    let wt := sqlite3_value_double argv.2
    let cnt := p.cnt + 1
    let wtSum := p.wtSum + wt
    let delta := x - p.rM
    let rM := p.rM + (wt / wtSum) * delta
    let rS := p.rS + wt * delta * (x - rM)
    some { rM := rM, rS := rS, wtSum := wtSum, cnt := cnt }
  else
    some p

/-- The finalize function `wtdVarFinalize`. -/
def wtdVarFinalize (context : Option VarCtx) : Option Dbl :=
  match context with
  | some p => if p.cnt > 1 then some (p.rS / (p.wtSum - Dbl.fin 1)) else some (Dbl.fin 0)
  | none => some (Dbl.fin 0)

/-- The finalize function `wtdStdFinalize`. The library function `sqrt` of
`math.h` is a parameter. -/
def wtdStdFinalize (sqrt : Dbl → Dbl) (context : Option VarCtx) : Option Dbl :=
  match context with
  | some p =>
    if p.cnt > 1 then some (sqrt (p.rS / (p.wtSum - Dbl.fin 1))) else some (Dbl.fin 0)
  | none => some (Dbl.fin 0)

/-! ## The quantities the statements are about -/

/-- Sum of a list of doubles, from `0.0`. -/
def Dbl.sum (l : List Dbl) : Dbl := l.foldr (· + ·) (Dbl.fin 0)

/-- The guard of `wtdFreqStep` on its argument. -/
def freqAccepted (v : sqlite3_value) : Bool :=
  decide (sqlite3_value_numeric_type v ≠ 0)

/-- Sum of the numbers that a list of weights converts to. -/
def freqWeightSum (ws : List sqlite3_value) : ℚ := (ws.map numericValue).sum

/-- The guard of `wtdMeanStep` and of `wtdVarStep` on a row: both arguments
have a datatype other than NULL. -/
def accepted (r : Row) : Bool :=
  decide (sqlite3_value_numeric_type r.1 ≠ SQLITE_NULL ∧
    sqlite3_value_numeric_type r.2 ≠ SQLITE_NULL)

/-- The rows of a stream that `wtdMeanStep` and `wtdVarStep` accept, in order. -/
def acceptedRows (rows : List Row) : List Row := rows.filter accepted

/-- Sum of the weights of the rows. -/
def weightSum (rows : List Row) : ℚ := (rows.map fun r => numericValue r.2).sum

/-- Sum of value times weight over the rows. -/
def weightedValueSum (rows : List Row) : ℚ :=
  (rows.map fun r => numericValue r.1 * numericValue r.2).sum

/-- Sum of weight times squared value over the rows. -/
def weightedSquareSum (rows : List Row) : ℚ :=
  (rows.map fun r => numericValue r.2 * numericValue r.1 ^ 2).sum

/-- The weighted mean `Σ(value·weight) / Σ(weight)` of the rows, as a double. -/
def weightedMean (rows : List Row) : Dbl :=
  Dbl.fin (weightedValueSum rows) / Dbl.fin (weightSum rows)

/-- The two-pass weighted variance
`Σ(weight·(value − weightedMean)²) / (Σweight − 1)` of the rows, as a double. -/
def twoPassVariance (rows : List Row) : Dbl :=
  Dbl.sum (rows.map fun r =>
      sqlite3_value_double r.2 * ((sqlite3_value_double r.1 - weightedMean rows) *
        (sqlite3_value_double r.1 - weightedMean rows))) /
    (Dbl.fin (weightSum rows) - Dbl.fin 1)

/-- Every non-empty initial segment of the rows has a non-zero weight sum, the
sum starting from `acc`. -/
def runningWeightNonzero (acc : ℚ) : List Row → Bool
  | [] => true
  | r :: rs =>
    decide (acc + numericValue r.2 ≠ 0) && runningWeightNonzero (acc + numericValue r.2) rs

/-- A square root to instantiate the parameter of `wtdStdFinalize` with:
non-finite on a negative or non-finite argument, as in C, and on a finite
argument the quotient of the integer square roots of numerator and
denominator, which is the exact root of the square of a rational. -/
def sqrtModel : Dbl → Dbl
  | Dbl.fin q =>
    if q < 0 then Dbl.nonfin
    else Dbl.fin ((Nat.sqrt q.num.natAbs : ℚ) / (Nat.sqrt q.den : ℚ))
  | Dbl.nonfin => Dbl.nonfin

/-- The rows `(10, 1), (20, 1)` of the examples on mean and variance. -/
def rowsTenTwenty : List Row :=
  [(sqlite3_value.integer 10, sqlite3_value.integer 1),
   (sqlite3_value.integer 20, sqlite3_value.integer 1)]

/-- The weights `1, 2, 3, NULL` of the example on frequency. -/
def weightsOneTwoThreeNull : List sqlite3_value :=
  [sqlite3_value.integer 1, sqlite3_value.integer 2, sqlite3_value.integer 3,
   sqlite3_value.null]

/-- Three rows `(10, 0), (20, 1), (30, 1)`, the first with weight zero. -/
def rowsZeroWeightFirst : List Row :=
  [(sqlite3_value.integer 10, sqlite3_value.integer 0),
   (sqlite3_value.integer 20, sqlite3_value.integer 1),
   (sqlite3_value.integer 30, sqlite3_value.integer 1)]

/-- A double is a finite number that is at least `0.0`; a non-finite double
(which may be a NaN) is not. -/
def Dbl.nonneg : Dbl → Bool
  | Dbl.fin q => decide (0 ≤ q)
  | Dbl.nonfin => false

/-- The sum `Σ weight·(value − m)²` of the weighted squared deviations of the
rows from a centre `m`, as a double. -/
def weightedSqDevSum (rows : List Row) (m : Dbl) : Dbl :=
  Dbl.sum (rows.map fun r =>
    sqlite3_value_double r.2 * ((sqlite3_value_double r.1 - m) *
      (sqlite3_value_double r.1 - m)))

/-- Two rows `(0, 2), (1, -1)`, the second with a negative weight. -/
def rowsNegativeWeight : List Row :=
  [(sqlite3_value.integer 0, sqlite3_value.integer 2),
   (sqlite3_value.integer 1, sqlite3_value.integer (-1))]

/-- Two rows `(0, 0.25), (1, 0.25)`, whose positive weights sum to `0.5`. -/
def rowsQuarterWeights : List Row :=
  [(sqlite3_value.float 0, sqlite3_value.float (1 / 4)),
   (sqlite3_value.float 1, sqlite3_value.float (1 / 4))]

/-- A stream in which the row `(x, k)`, of integer weight `k`, stands between
the rows `before` and the rows `after`. -/
def streamWithRow (before after : List Row) (x : sqlite3_value) (k : Nat) : List Row :=
  before ++ (x, sqlite3_value.integer k) :: after

/-- The same stream with the row `(x, k)` replaced by `k` consecutive rows
`(x, 1)`. -/
def streamWithCopies (before after : List Row) (x : sqlite3_value) (k : Nat) : List Row :=
  before ++ (List.replicate k (x, sqlite3_value.integer 1) ++ after)

/-- A value is numeric: its datatype after numeric affinity is
`SQLITE_INTEGER` or `SQLITE_FLOAT`. -/
def isNumeric (v : sqlite3_value) : Bool :=
  decide (sqlite3_value_numeric_type v = SQLITE_INTEGER ∨
    sqlite3_value_numeric_type v = SQLITE_FLOAT)

/-- Sum of the numeric weights of a stream. -/
def numericWeightSum (ws : List sqlite3_value) : ℚ :=
  freqWeightSum (ws.filter isNumeric)

/-- Sum of the numbers that the weights of a stream that are not numeric (a
text, a blob, NULL) convert to. -/
def otherWeightSum (ws : List sqlite3_value) : ℚ :=
  freqWeightSum (ws.filter fun v => !isNumeric v)

/-- The weights `'12abc', 1`: a text that starts with the number `12` without
looking like a number, then the integer `1`. -/
def weightsTextTwelveOne : List sqlite3_value :=
  [sqlite3_value.text 12, sqlite3_value.integer 1]

/-! ## Arithmetic of doubles -/

namespace Dbl

@[simp] theorem fin_add_fin (a b : ℚ) : fin a + fin b = fin (a + b) := rfl

@[simp] theorem fin_sub_fin (a b : ℚ) : fin a - fin b = fin (a - b) := rfl

@[simp] theorem fin_mul_fin (a b : ℚ) : fin a * fin b = fin (a * b) := rfl

theorem fin_div_fin (a b : ℚ) : fin a / fin b = if b = 0 then nonfin else fin (a / b) := rfl

@[simp] theorem fin_div_fin_of_ne (a : ℚ) {b : ℚ} (h : b ≠ 0) : fin a / fin b = fin (a / b) := by
  rw [fin_div_fin, if_neg h]

@[simp] theorem fin_div_zero (a : ℚ) : fin a / fin 0 = nonfin := by
  rw [fin_div_fin, if_pos rfl]

@[simp] theorem nonfin_add (d : Dbl) : nonfin + d = nonfin := rfl

@[simp] theorem add_nonfin (d : Dbl) : d + nonfin = nonfin := by cases d <;> rfl

@[simp] theorem nonfin_sub (d : Dbl) : nonfin - d = nonfin := rfl

@[simp] theorem sub_nonfin (d : Dbl) : d - nonfin = nonfin := by cases d <;> rfl

@[simp] theorem nonfin_mul (d : Dbl) : nonfin * d = nonfin := rfl

@[simp] theorem mul_nonfin (d : Dbl) : d * nonfin = nonfin := by cases d <;> rfl

@[simp] theorem nonfin_div (d : Dbl) : nonfin / d = nonfin := rfl

@[simp] theorem div_nonfin (d : Dbl) : d / nonfin = nonfin := by cases d <;> rfl

theorem sum_map_fin {α : Type} (l : List α) (f : α → ℚ) :
    Dbl.sum (l.map fun a => fin (f a)) = fin ((l.map f).sum) := by
  induction l with
  | nil => rfl
  | cons a l ih =>
    simp only [Dbl.sum, List.map_cons, List.foldr_cons, List.sum_cons] at ih ⊢
    rw [ih, fin_add_fin]

end Dbl

/-! ## Sums over rows -/

@[simp] theorem weightSum_nil : weightSum [] = 0 := rfl

@[simp] theorem weightedValueSum_nil : weightedValueSum [] = 0 := rfl

@[simp] theorem weightedSquareSum_nil : weightedSquareSum [] = 0 := rfl

theorem weightSum_cons (r : Row) (rs : List Row) :
    weightSum (r :: rs) = numericValue r.2 + weightSum rs := by
  simp [weightSum]

theorem weightedValueSum_cons (r : Row) (rs : List Row) :
    weightedValueSum (r :: rs) = numericValue r.1 * numericValue r.2 + weightedValueSum rs := by
  simp [weightedValueSum]

theorem weightedSquareSum_cons (r : Row) (rs : List Row) :
    weightedSquareSum (r :: rs) =
      numericValue r.2 * numericValue r.1 ^ 2 + weightedSquareSum rs := by
  simp [weightedSquareSum]

theorem acceptedRows_cons_of_accepted (r : Row) (rs : List Row) (h : accepted r = true) :
    acceptedRows (r :: rs) = r :: acceptedRows rs := by
  simp [acceptedRows, List.filter_cons, h]

theorem acceptedRows_cons_of_not_accepted (r : Row) (rs : List Row) (h : accepted r = false) :
    acceptedRows (r :: rs) = acceptedRows rs := by
  simp [acceptedRows, List.filter_cons, h]

/-! ## The mean aggregate -/

theorem wtdMeanStep_of_accepted (p : MeanCtx) (r : Row) (h : accepted r = true) :
    wtdMeanStep (some p) r =
      some { cnt := p.cnt + 1,
             xSum := p.xSum + Dbl.fin (numericValue r.1 * numericValue r.2),
             wtSum := p.wtSum + Dbl.fin (numericValue r.2) } := by
  simp only [accepted, decide_eq_true_eq] at h
  simp [wtdMeanStep, sqlite3_value_double, h.1.symm, h.2.symm]

theorem wtdMeanStep_of_not_accepted (p : MeanCtx) (r : Row) (h : accepted r = false) :
    wtdMeanStep (some p) r = some p := by
  simp only [accepted, decide_eq_false_iff_not] at h
  have h' : ¬ (SQLITE_NULL ≠ sqlite3_value_numeric_type r.1 ∧
      SQLITE_NULL ≠ sqlite3_value_numeric_type r.2) := fun hc => h ⟨hc.1.symm, hc.2.symm⟩
  simp [wtdMeanStep, h']

/-- A step sees a missing context as the zero-filled one. -/
theorem wtdMeanStep_getD (c : Option MeanCtx) (r : Row) :
    wtdMeanStep c r = wtdMeanStep (some (c.getD MeanCtx.zero)) r := by
  cases c <;> rfl

/-- The finalize function sees a missing context as the zero-filled one. -/
theorem wtdMeanFinalize_getD (c : Option MeanCtx) :
    wtdMeanFinalize c = wtdMeanFinalize (some (c.getD MeanCtx.zero)) := by
  cases c with
  | none => simp [wtdMeanFinalize, MeanCtx.zero]
  | some p => rfl

theorem foldl_wtdMeanStep_getD (rows : List Row) (c : Option MeanCtx) :
    (rows.foldl wtdMeanStep c).getD MeanCtx.zero =
      (rows.foldl wtdMeanStep (some (c.getD MeanCtx.zero))).getD MeanCtx.zero := by
  cases rows with
  | nil => simp
  | cons r rs => rw [List.foldl_cons, List.foldl_cons, ← wtdMeanStep_getD]

/-- The accumulator after a stream, from finite sums `a`, `b` and count `n`. -/
theorem foldl_wtdMeanStep (rows : List Row) (a b : ℚ) (n : Int) :
    rows.foldl wtdMeanStep (some { xSum := Dbl.fin a, wtSum := Dbl.fin b, cnt := n }) =
      some { xSum := Dbl.fin (a + weightedValueSum (acceptedRows rows)),
             wtSum := Dbl.fin (b + weightSum (acceptedRows rows)),
             cnt := n + (acceptedRows rows).length } := by
  induction rows generalizing a b n with
  | nil => simp [acceptedRows]
  | cons r rs ih =>
    rw [List.foldl_cons]
    by_cases h : accepted r = true
    · rw [wtdMeanStep_of_accepted _ _ h, acceptedRows_cons_of_accepted _ _ h]
      simp only [Dbl.fin_add_fin]
      rw [ih, weightedValueSum_cons, weightSum_cons, List.length_cons, Nat.cast_add,
        Nat.cast_one, add_assoc a, add_assoc b, add_assoc n, add_comm (1 : Int)]
    · have h' : accepted r = false := by simpa using h
      rw [wtdMeanStep_of_not_accepted _ _ h', acceptedRows_cons_of_not_accepted _ _ h', ih]

/-- The accumulator after a stream, from the zero-filled context. -/
theorem foldl_wtdMeanStep_zero (rows : List Row) :
    (rows.foldl wtdMeanStep none).getD MeanCtx.zero =
      { xSum := Dbl.fin (weightedValueSum (acceptedRows rows)),
        wtSum := Dbl.fin (weightSum (acceptedRows rows)),
        cnt := (acceptedRows rows).length } := by
  rw [foldl_wtdMeanStep_getD]
  simp only [Option.getD_none, MeanCtx.zero]
  rw [foldl_wtdMeanStep]
  simp

/-- The result of `wtd_mean` on a stream. -/
theorem wtdMeanFinalize_foldl (rows : List Row) :
    wtdMeanFinalize (rows.foldl wtdMeanStep none) =
      if (acceptedRows rows).length = 0 then none
      else some (Dbl.fin (weightedValueSum (acceptedRows rows)) /
        Dbl.fin (weightSum (acceptedRows rows))) := by
  rw [wtdMeanFinalize_getD, foldl_wtdMeanStep_zero]
  by_cases h : (acceptedRows rows).length = 0
  · simp [wtdMeanFinalize, h]
  · have hpos : (0 : Int) < ((acceptedRows rows).length : Int) := by
      exact_mod_cast Nat.pos_of_ne_zero h
    simp [wtdMeanFinalize, h, hpos]

/-- C1: weighted mean. For every stream of rows fed in order to `wtdMeanStep`
from no context (the first step allocates the zero-filled `MeanCtx`), if the
weights of the accepted rows sum to a non-zero value, `wtdMeanFinalize` returns
the finite double `Σ(value·weight) / Σ(weight)` over the accepted rows. -/
theorem wtdMean_eq_weighted_mean (rows : List Row)
    (h : weightSum (acceptedRows rows) ≠ 0) :
    wtdMeanFinalize (rows.foldl wtdMeanStep none) =
      some (Dbl.fin (weightedValueSum (acceptedRows rows) / weightSum (acceptedRows rows))) := by
  have hne : (acceptedRows rows).length ≠ 0 := by
    intro hl
    rw [List.length_eq_zero] at hl
    rw [hl] at h
    exact h rfl
  rw [wtdMeanFinalize_foldl, if_neg hne, Dbl.fin_div_fin_of_ne _ h]

/-- C1, instance: the rows `(10, 1), (20, 1)` have weight sum `2` and mean
`15.0`. -/
theorem wtdMean_eq_weighted_mean_witness :
    weightSum (acceptedRows rowsTenTwenty) ≠ 0 ∧
      wtdMeanFinalize (rowsTenTwenty.foldl wtdMeanStep none) =
        some (Dbl.fin (weightedValueSum (acceptedRows rowsTenTwenty) /
          weightSum (acceptedRows rowsTenTwenty))) ∧
      weightedValueSum (acceptedRows rowsTenTwenty) / weightSum (acceptedRows rowsTenTwenty) =
        15 := by
  have hacc : acceptedRows rowsTenTwenty = rowsTenTwenty := by decide
  have hW : weightSum (acceptedRows rowsTenTwenty) ≠ 0 := by
    rw [hacc]
    norm_num [rowsTenTwenty, weightSum, numericValue]
  refine ⟨hW, wtdMean_eq_weighted_mean rowsTenTwenty hW, ?_⟩
  rw [hacc]
  norm_num [rowsTenTwenty, weightSum, weightedValueSum, numericValue]

/-! ## The variance aggregate -/

theorem wtdVarStep_of_accepted (p : VarCtx) (r : Row) (h : accepted r = true) :
    wtdVarStep (some p) r =
      some { cnt := p.cnt + 1,
             wtSum := p.wtSum + sqlite3_value_double r.2,
             rM := p.rM + (sqlite3_value_double r.2 / (p.wtSum + sqlite3_value_double r.2)) *
                    (sqlite3_value_double r.1 - p.rM),
             rS := p.rS + sqlite3_value_double r.2 * (sqlite3_value_double r.1 - p.rM) *
                    (sqlite3_value_double r.1 -
                      (p.rM + (sqlite3_value_double r.2 /
                        (p.wtSum + sqlite3_value_double r.2)) *
                          (sqlite3_value_double r.1 - p.rM))) } := by
  simp only [accepted, decide_eq_true_eq] at h
  simp [wtdVarStep, h.1, h.2]

theorem wtdVarStep_of_not_accepted (p : VarCtx) (r : Row) (h : accepted r = false) :
    wtdVarStep (some p) r = some p := by
  simp only [accepted, decide_eq_false_iff_not] at h
  simp [wtdVarStep, h]

/-- A step sees a missing context as the zero-filled one. -/
theorem wtdVarStep_getD (c : Option VarCtx) (r : Row) :
    wtdVarStep c r = wtdVarStep (some (c.getD VarCtx.zero)) r := by
  cases c <;> rfl

/-- The finalize function sees a missing context as the zero-filled one. -/
theorem wtdVarFinalize_getD (c : Option VarCtx) :
    wtdVarFinalize c = wtdVarFinalize (some (c.getD VarCtx.zero)) := by
  cases c with
  | none => simp [wtdVarFinalize, VarCtx.zero]
  | some p => rfl

/-- The finalize function sees a missing context as the zero-filled one. -/
theorem wtdStdFinalize_getD (sqrt : Dbl → Dbl) (c : Option VarCtx) :
    wtdStdFinalize sqrt c = wtdStdFinalize sqrt (some (c.getD VarCtx.zero)) := by
  cases c with
  | none => simp [wtdStdFinalize, VarCtx.zero]
  | some p => rfl

theorem foldl_wtdVarStep_getD (rows : List Row) (c : Option VarCtx) :
    (rows.foldl wtdVarStep c).getD VarCtx.zero =
      (rows.foldl wtdVarStep (some (c.getD VarCtx.zero))).getD VarCtx.zero := by
  cases rows with
  | nil => simp
  | cons r rs => rw [List.foldl_cons, List.foldl_cons, ← wtdVarStep_getD]

/-- The counter after a stream counts the accepted rows, whatever the doubles
of the context are. -/
theorem foldl_wtdVarStep_cnt (rows : List Row) (p : VarCtx) :
    ∃ q, rows.foldl wtdVarStep (some p) = some q ∧
      q.cnt = p.cnt + (acceptedRows rows).length := by
  induction rows generalizing p with
  | nil => exact ⟨p, rfl, by simp [acceptedRows]⟩
  | cons r rs ih =>
    rw [List.foldl_cons]
    by_cases h : accepted r = true
    · rw [wtdVarStep_of_accepted _ _ h, acceptedRows_cons_of_accepted _ _ h]
      obtain ⟨q, hq, hc⟩ := ih _
      refine ⟨q, hq, ?_⟩
      rw [hc, List.length_cons, Nat.cast_add, Nat.cast_one]
      ring
    · have h' : accepted r = false := by simpa using h
      rw [wtdVarStep_of_not_accepted _ _ h', acceptedRows_cons_of_not_accepted _ _ h']
      exact ih p

/-- The mean update of one Welford step, on the sums `A = Σw` and `B = Σxw`. -/
theorem welford_mean (A B x w : ℚ) (h0 : A ≠ 0 ∨ B = 0) (hA : A + w ≠ 0) :
    B / A + w / (A + w) * (x - B / A) = (B + x * w) / (A + w) := by
  rcases eq_or_ne A 0 with hz | hz
  · have hB : B = 0 := by
      rcases h0 with h | h
      · exact absurd hz h
      · exact h
    subst hz
    subst hB
    have hw : w ≠ 0 := by simpa using hA
    field_simp
  · field_simp
    ring

/-- The update of the sum of squared deviations of one Welford step, on the
sums `A = Σw`, `B = Σxw` and `C = Σwx²`. -/
theorem welford_sumsq (A B C x w : ℚ) (h0 : A ≠ 0 ∨ (B = 0 ∧ C = 0)) (hA : A + w ≠ 0) :
    C - B ^ 2 / A + w * (x - B / A) * (x - (B + x * w) / (A + w)) =
      C + w * x ^ 2 - (B + x * w) ^ 2 / (A + w) := by
  rcases eq_or_ne A 0 with hz | hz
  · have hB : B = 0 := by
      rcases h0 with h | h
      · exact absurd hz h
      · exact h.1
    subst hz
    subst hB
    have hw : w ≠ 0 := by simpa using hA
    field_simp
    ring
  · field_simp
    ring

/-- The accumulator after a stream whose running weight sums stay non-zero:
from sums `A`, `B`, `C` it holds the mean `B/A` and the sum of squared
deviations `C - B²/A` of the enlarged sums. -/
theorem foldl_wtdVarStep (rows : List Row) (A B C : ℚ) (n : Int)
    (h0 : A ≠ 0 ∨ (B = 0 ∧ C = 0))
    (hp : runningWeightNonzero A (acceptedRows rows) = true) :
    rows.foldl wtdVarStep
        (some { rM := Dbl.fin (B / A), rS := Dbl.fin (C - B ^ 2 / A),
                wtSum := Dbl.fin A, cnt := n }) =
      some { rM := Dbl.fin ((B + weightedValueSum (acceptedRows rows)) /
                      (A + weightSum (acceptedRows rows))),
             rS := Dbl.fin (C + weightedSquareSum (acceptedRows rows) -
                      (B + weightedValueSum (acceptedRows rows)) ^ 2 /
                        (A + weightSum (acceptedRows rows))),
             wtSum := Dbl.fin (A + weightSum (acceptedRows rows)),
             cnt := n + (acceptedRows rows).length } := by
  induction rows generalizing A B C n with
  | nil => simp [acceptedRows]
  | cons r rs ih =>
    rw [List.foldl_cons]
    by_cases h : accepted r = true
    · rw [acceptedRows_cons_of_accepted _ _ h] at hp ⊢
      simp only [runningWeightNonzero, Bool.and_eq_true, decide_eq_true_eq] at hp
      obtain ⟨hA, hp'⟩ := hp
      rw [wtdVarStep_of_accepted _ _ h]
      simp only [sqlite3_value_double, Dbl.fin_add_fin, Dbl.fin_sub_fin, Dbl.fin_mul_fin,
        Dbl.fin_div_fin_of_ne _ hA]
      have hB : A ≠ 0 ∨ B = 0 := h0.imp id And.left
      rw [welford_mean A B _ _ hB hA, welford_sumsq A B C _ _ h0 hA]
      rw [ih (A + numericValue r.2) (B + numericValue r.1 * numericValue r.2)
        (C + numericValue r.2 * numericValue r.1 ^ 2) (n + 1) (Or.inl hA) hp']
      rw [weightedValueSum_cons, weightSum_cons, weightedSquareSum_cons, List.length_cons,
        Nat.cast_add, Nat.cast_one, add_assoc A, add_assoc B, add_assoc C, add_assoc n,
        add_comm (1 : Int)]
    · have h' : accepted r = false := by simpa using h
      rw [acceptedRows_cons_of_not_accepted _ _ h'] at hp ⊢
      rw [wtdVarStep_of_not_accepted _ _ h', ih A B C n h0 hp]

/-- Sum of weighted squared deviations from any centre `m`, through the sums. -/
theorem sum_sq_dev (rows : List Row) (m : ℚ) :
    (rows.map fun r =>
        numericValue r.2 * ((numericValue r.1 - m) * (numericValue r.1 - m))).sum =
      weightedSquareSum rows - 2 * m * weightedValueSum rows + m ^ 2 * weightSum rows := by
  induction rows with
  | nil => simp
  | cons r rs ih =>
    rw [List.map_cons, List.sum_cons, ih, weightedSquareSum_cons, weightedValueSum_cons,
      weightSum_cons]
    ring

/-- The two-pass variance of rows with a non-zero weight sum, through the sums. -/
theorem twoPassVariance_eq (rows : List Row) (hW : weightSum rows ≠ 0) :
    twoPassVariance rows =
      Dbl.fin (weightedSquareSum rows - weightedValueSum rows ^ 2 / weightSum rows) /
        Dbl.fin (weightSum rows - 1) := by
  unfold twoPassVariance weightedMean
  simp only [sqlite3_value_double, Dbl.fin_div_fin_of_ne _ hW, Dbl.fin_sub_fin, Dbl.fin_mul_fin]
  rw [Dbl.sum_map_fin rows (fun r => numericValue r.2 *
    ((numericValue r.1 - weightedValueSum rows / weightSum rows) *
      (numericValue r.1 - weightedValueSum rows / weightSum rows))), sum_sq_dev]
  congr 2
  field_simp
  ring

theorem weightSum_ne_zero_of_running (rows : List Row) (A : ℚ)
    (hp : runningWeightNonzero A rows = true) (hne : rows ≠ []) :
    A + weightSum rows ≠ 0 := by
  induction rows generalizing A with
  | nil => exact absurd rfl hne
  | cons r rs ih =>
    simp only [runningWeightNonzero, Bool.and_eq_true, decide_eq_true_eq] at hp
    rcases eq_or_ne rs [] with hrs | hrs
    · subst hrs
      simpa [weightSum_cons] using hp.1
    · have := ih (A + numericValue r.2) hp.2 hrs
      simpa [weightSum_cons, add_assoc] using this

/-- The accumulator after a stream whose running weight sums stay non-zero,
from the zero-filled context. -/
theorem foldl_wtdVarStep_zero (rows : List Row)
    (hp : runningWeightNonzero 0 (acceptedRows rows) = true) :
    (rows.foldl wtdVarStep none).getD VarCtx.zero =
      { rM := Dbl.fin (weightedValueSum (acceptedRows rows) / weightSum (acceptedRows rows)),
        rS := Dbl.fin (weightedSquareSum (acceptedRows rows) -
                weightedValueSum (acceptedRows rows) ^ 2 / weightSum (acceptedRows rows)),
        wtSum := Dbl.fin (weightSum (acceptedRows rows)),
        cnt := (acceptedRows rows).length } := by
  have hz : VarCtx.zero =
      { rM := Dbl.fin ((0 : ℚ) / 0), rS := Dbl.fin (0 - (0 : ℚ) ^ 2 / 0),
        wtSum := Dbl.fin 0, cnt := 0 } := by
    simp [VarCtx.zero]
  rw [foldl_wtdVarStep_getD, Option.getD_none]
  conv_lhs => rw [hz]
  rw [foldl_wtdVarStep rows 0 0 0 0 (Or.inr ⟨rfl, rfl⟩) hp]
  simp

/-- C2, as amended: weighted variance. For every stream of rows fed in order
to `wtdVarStep` from no context, if more than one row is accepted and every
non-empty initial segment of the accepted rows has a non-zero weight sum, then
`wtdVarFinalize` returns the two-pass value
`Σ(weight·(value − m)²) / (Σweight − 1)` over the accepted rows, with `m` their
weighted mean (a non-finite double when the weights sum to `1`). -/
theorem wtdVar_eq_two_pass (rows : List Row) (hcnt : 1 < (acceptedRows rows).length)
    (hp : runningWeightNonzero 0 (acceptedRows rows) = true) :
    wtdVarFinalize (rows.foldl wtdVarStep none) =
      some (twoPassVariance (acceptedRows rows)) := by
  have hne : acceptedRows rows ≠ [] := by
    intro h
    rw [h] at hcnt
    simp at hcnt
  have hW : weightSum (acceptedRows rows) ≠ 0 := by
    simpa using weightSum_ne_zero_of_running _ 0 hp hne
  have hc : ((acceptedRows rows).length : Int) > 1 := by exact_mod_cast hcnt
  rw [wtdVarFinalize_getD, foldl_wtdVarStep_zero rows hp, twoPassVariance_eq _ hW]
  simp only [wtdVarFinalize, Dbl.fin_sub_fin, if_pos hc]

/-- C2, instance: the rows `(10, 1), (20, 1)` end with `wtSum = 2` and
`rS = 50`, and the variance is `50.0`. -/
theorem wtdVar_eq_two_pass_witness :
    1 < (acceptedRows rowsTenTwenty).length ∧
      runningWeightNonzero 0 (acceptedRows rowsTenTwenty) = true ∧
      wtdVarFinalize (rowsTenTwenty.foldl wtdVarStep none) =
        some (twoPassVariance (acceptedRows rowsTenTwenty)) ∧
      twoPassVariance (acceptedRows rowsTenTwenty) = Dbl.fin 50 ∧
      rowsTenTwenty.foldl wtdVarStep none =
        some { rM := Dbl.fin 15, rS := Dbl.fin 50, wtSum := Dbl.fin 2, cnt := 2 } := by
  have hacc : acceptedRows rowsTenTwenty = rowsTenTwenty := by decide
  have hp : runningWeightNonzero 0 (acceptedRows rowsTenTwenty) = true := by
    rw [hacc]
    norm_num [rowsTenTwenty, runningWeightNonzero, numericValue]
  refine ⟨by decide, hp, wtdVar_eq_two_pass rowsTenTwenty (by decide) hp, ?_, ?_⟩
  · rw [hacc]
    norm_num [rowsTenTwenty, twoPassVariance, weightedMean, weightSum, weightedValueSum,
      Dbl.sum, numericValue, sqlite3_value_double]
  · norm_num [rowsTenTwenty, wtdVarStep, VarCtx.zero, numericValue,
      sqlite3_value_numeric_type, sqlite3_value_double, SQLITE_NULL, SQLITE_INTEGER]

/-- C2, as stated, fails: of the rows `(10, 0), (20, 1), (30, 1)` all three are
accepted, the two-pass variance is `50`, and `wtdVarFinalize` returns a
non-finite double, since the first step divides the weight `0` by the weight
sum `0`. -/
theorem wtdVar_two_pass_counterexample :
    1 < (acceptedRows rowsZeroWeightFirst).length ∧
      twoPassVariance (acceptedRows rowsZeroWeightFirst) = Dbl.fin 50 ∧
      wtdVarFinalize (rowsZeroWeightFirst.foldl wtdVarStep none) = some Dbl.nonfin ∧
      wtdVarFinalize (rowsZeroWeightFirst.foldl wtdVarStep none) ≠
        some (twoPassVariance (acceptedRows rowsZeroWeightFirst)) := by
  have hacc : acceptedRows rowsZeroWeightFirst = rowsZeroWeightFirst := by decide
  have h1 : twoPassVariance (acceptedRows rowsZeroWeightFirst) = Dbl.fin 50 := by
    rw [hacc]
    norm_num [rowsZeroWeightFirst, twoPassVariance, weightedMean, weightSum, weightedValueSum,
      Dbl.sum, numericValue, sqlite3_value_double]
  have h2 : wtdVarFinalize (rowsZeroWeightFirst.foldl wtdVarStep none) = some Dbl.nonfin := by
    norm_num [rowsZeroWeightFirst, wtdVarFinalize, wtdVarStep, VarCtx.zero, numericValue,
      sqlite3_value_numeric_type, sqlite3_value_double, SQLITE_NULL, SQLITE_INTEGER]
  refine ⟨by decide, h1, h2, ?_⟩
  rw [h1, h2]
  simp

/-- C3: for every stream of rows, and for every context, the result of
`wtdStdFinalize` is the square root of the result of `wtdVarFinalize` on the
same accumulator, also when the count is at most `1` and both are `0.0`. The
library function `sqrt` is any function with `sqrt(0.0) = 0.0`. -/
theorem wtdStd_eq_sqrt_wtdVar (sqrt : Dbl → Dbl) (h0 : sqrt (Dbl.fin 0) = Dbl.fin 0)
    (rows : List Row) :
    wtdStdFinalize sqrt (rows.foldl wtdVarStep none) =
        (wtdVarFinalize (rows.foldl wtdVarStep none)).map sqrt ∧
      (∀ context : Option VarCtx,
        wtdStdFinalize sqrt context = (wtdVarFinalize context).map sqrt) := by
  have key : ∀ context : Option VarCtx,
      wtdStdFinalize sqrt context = (wtdVarFinalize context).map sqrt := by
    intro context
    cases context with
    | none => simp [wtdStdFinalize, wtdVarFinalize, h0]
    | some p =>
      by_cases hc : p.cnt > 1
      · simp [wtdStdFinalize, wtdVarFinalize, hc]
      · simp [wtdStdFinalize, wtdVarFinalize, hc, h0]
  exact ⟨key _, key⟩

/-- C3, instance: with `sqrtModel` and the rows `(10, 1), (20, 1)`. -/
theorem wtdStd_eq_sqrt_wtdVar_witness :
    sqrtModel (Dbl.fin 0) = Dbl.fin 0 ∧
      wtdStdFinalize sqrtModel (rowsTenTwenty.foldl wtdVarStep none) =
        (wtdVarFinalize (rowsTenTwenty.foldl wtdVarStep none)).map sqrtModel :=
  ⟨by simp [sqrtModel],
   (wtdStd_eq_sqrt_wtdVar sqrtModel (by simp [sqrtModel]) rowsTenTwenty).1⟩

/-! ## The frequency aggregate -/

/-- The guard of `wtdFreqStep` holds for every value: no datatype code is `0`. -/
theorem freqAccepted_eq_true (v : sqlite3_value) : freqAccepted v = true := by
  cases v <;> rfl

theorem wtdFreqStep_some (p : FreqCtx) (v : sqlite3_value) :
    wtdFreqStep (some p) v =
      some { cnt := p.cnt + 1, sumWt := p.sumWt + Dbl.fin (numericValue v) } := by
  have h : sqlite3_value_numeric_type v ≠ 0 := by
    have := freqAccepted_eq_true v
    simpa [freqAccepted] using this
  simp [wtdFreqStep, h, sqlite3_value_double]

/-- A step sees a missing context as the zero-filled one. -/
theorem wtdFreqStep_getD (c : Option FreqCtx) (v : sqlite3_value) :
    wtdFreqStep c v = wtdFreqStep (some (c.getD FreqCtx.zero)) v := by
  cases c <;> rfl

/-- The accumulator after a stream, from a finite sum `s` and count `n`. -/
theorem foldl_wtdFreqStep (ws : List sqlite3_value) (s : ℚ) (n : Int) :
    ws.foldl wtdFreqStep (some { sumWt := Dbl.fin s, cnt := n }) =
      some { sumWt := Dbl.fin (s + freqWeightSum ws), cnt := n + ws.length } := by
  induction ws generalizing s n with
  | nil => simp [freqWeightSum]
  | cons v vs ih =>
    rw [List.foldl_cons, wtdFreqStep_some]
    simp only [Dbl.fin_add_fin]
    rw [ih]
    simp only [freqWeightSum, List.map_cons, List.sum_cons, List.length_cons, Nat.cast_add,
      Nat.cast_one]
    rw [add_assoc s, add_assoc n, add_comm (1 : Int)]

/-- The accumulator after a non-empty stream, from no context. -/
theorem foldl_wtdFreqStep_none (v : sqlite3_value) (vs : List sqlite3_value) :
    (v :: vs).foldl wtdFreqStep none =
      some { sumWt := Dbl.fin (freqWeightSum (v :: vs)), cnt := ((v :: vs).length : Int) } := by
  have h : (v :: vs).foldl wtdFreqStep none =
      (v :: vs).foldl wtdFreqStep (some { sumWt := Dbl.fin 0, cnt := 0 }) := rfl
  rw [h, foldl_wtdFreqStep]
  simp

/-- C4, the code at the failing input: `wtdFreqStep` does not skip NULL. From
any accumulator a NULL argument increments `cnt` (and adds `0.0` to `sumWt`),
and the weights `1, 2, 3, NULL` end with `cnt = 4`, not `3`, and
`sumWt = 6`. -/
theorem wtdFreqStep_counts_null :
    (∀ p : FreqCtx, wtdFreqStep (some p) sqlite3_value.null =
        some { cnt := p.cnt + 1, sumWt := p.sumWt + Dbl.fin 0 }) ∧
      weightsOneTwoThreeNull.foldl wtdFreqStep none =
        some { sumWt := Dbl.fin 6, cnt := 4 } := by
  refine ⟨fun p => wtdFreqStep_some p _, ?_⟩
  rw [weightsOneTwoThreeNull, foldl_wtdFreqStep_none]
  norm_num [freqWeightSum, numericValue]

/-- C7, the code at the failing input: the stream made of one NULL ends with
`cnt = 1`, and `wtdFreqFinalize` emits `0.0` for it; only the empty stream
gives no value. -/
theorem wtdFreqFinalize_null_stream :
    wtdFreqFinalize ([sqlite3_value.null].foldl wtdFreqStep none) = some (Dbl.fin 0) ∧
      wtdFreqFinalize (([] : List sqlite3_value).foldl wtdFreqStep none) = none := by
  refine ⟨?_, rfl⟩
  rw [foldl_wtdFreqStep_none]
  norm_num [wtdFreqFinalize, freqWeightSum, numericValue, Dbl.ofInt]

/-! ## Skipped rows -/

theorem accepted_eq_false_of_null (r : Row)
    (h : sqlite3_value_numeric_type r.1 = SQLITE_NULL ∨
      sqlite3_value_numeric_type r.2 = SQLITE_NULL) : accepted r = false := by
  simp only [accepted, decide_eq_false_iff_not, not_and_or, not_not]
  exact h

/-- Dropping a row that the step maps to the unchanged context, at any
position, for the mean aggregate. -/
theorem foldl_wtdMeanStep_insert (r : Row) (hr : ∀ p : MeanCtx, wtdMeanStep (some p) r = some p)
    (before after : List Row) :
    ((before ++ r :: after).foldl wtdMeanStep none).getD MeanCtx.zero =
      ((before ++ after).foldl wtdMeanStep none).getD MeanCtx.zero := by
  rw [List.foldl_append, List.foldl_append, List.foldl_cons, wtdMeanStep_getD, hr,
    ← foldl_wtdMeanStep_getD]

/-- Dropping a row that the step maps to the unchanged context, at any
position, for the variance aggregate. -/
theorem foldl_wtdVarStep_insert (r : Row) (hr : ∀ p : VarCtx, wtdVarStep (some p) r = some p)
    (before after : List Row) :
    ((before ++ r :: after).foldl wtdVarStep none).getD VarCtx.zero =
      ((before ++ after).foldl wtdVarStep none).getD VarCtx.zero := by
  rw [List.foldl_append, List.foldl_append, List.foldl_cons, wtdVarStep_getD, hr,
    ← foldl_wtdVarStep_getD]

/-- The datatype code is `SQLITE_NULL` for NULL only: an integer, a float, a
text and a blob all have another code. -/
theorem numeric_type_eq_null_iff (v : sqlite3_value) :
    sqlite3_value_numeric_type v = SQLITE_NULL ↔ v = sqlite3_value.null := by
  cases v <;> simp [sqlite3_value_numeric_type, SQLITE_NULL, SQLITE_INTEGER, SQLITE_FLOAT,
    SQLITE_TEXT, SQLITE_BLOB]

/-- C5, as amended: the mean and variance steps skip a row atomically exactly
when either input is NULL. For such a row and every accumulator `wtdMeanStep`
leaves every field of `MeanCtx` unchanged and `wtdVarStep` leaves every field
of `VarCtx` unchanged (a first step leaves the fresh context zero-filled);
inserting such a row at any position of a stream yields the same final
accumulator fields and the same results of `wtdMeanFinalize`,
`wtdVarFinalize` and `wtdStdFinalize` as the stream without it. Every other
row is accepted, whatever the datatypes of its inputs: an input is NULL only
if it is the value NULL, so a text or a blob that is not numeric is not
skipped, and the row enters the accumulator with the numbers that
`sqlite3_value_double` converts its inputs to. -/
theorem null_row_skipped (r : Row) :
    ((sqlite3_value_numeric_type r.1 = SQLITE_NULL ∨
        sqlite3_value_numeric_type r.2 = SQLITE_NULL) →
      (∀ p : MeanCtx, wtdMeanStep (some p) r = some p) ∧
        wtdMeanStep none r = some MeanCtx.zero ∧
        (∀ p : VarCtx, wtdVarStep (some p) r = some p) ∧
        wtdVarStep none r = some VarCtx.zero ∧
        (∀ before after : List Row,
          ((before ++ r :: after).foldl wtdMeanStep none).getD MeanCtx.zero =
              ((before ++ after).foldl wtdMeanStep none).getD MeanCtx.zero ∧
            wtdMeanFinalize ((before ++ r :: after).foldl wtdMeanStep none) =
              wtdMeanFinalize ((before ++ after).foldl wtdMeanStep none) ∧
            ((before ++ r :: after).foldl wtdVarStep none).getD VarCtx.zero =
              ((before ++ after).foldl wtdVarStep none).getD VarCtx.zero ∧
            wtdVarFinalize ((before ++ r :: after).foldl wtdVarStep none) =
              wtdVarFinalize ((before ++ after).foldl wtdVarStep none) ∧
            ∀ sqrt : Dbl → Dbl,
              wtdStdFinalize sqrt ((before ++ r :: after).foldl wtdVarStep none) =
                wtdStdFinalize sqrt ((before ++ after).foldl wtdVarStep none))) ∧
      ((sqlite3_value_numeric_type r.1 ≠ SQLITE_NULL ∧
          sqlite3_value_numeric_type r.2 ≠ SQLITE_NULL) →
        (∀ p : MeanCtx,
          wtdMeanStep (some p) r =
              some { cnt := p.cnt + 1,
                     xSum := p.xSum + Dbl.fin (numericValue r.1 * numericValue r.2),
                     wtSum := p.wtSum + Dbl.fin (numericValue r.2) } ∧
            wtdMeanStep (some p) r ≠ some p) ∧
          (∀ p : VarCtx,
            (∃ q, wtdVarStep (some p) r = some q ∧
              q.cnt = p.cnt + 1 ∧
              q.wtSum = p.wtSum + Dbl.fin (numericValue r.2) ∧
              q.rM = p.rM +
                (Dbl.fin (numericValue r.2) / q.wtSum) * (Dbl.fin (numericValue r.1) - p.rM) ∧
              q.rS = p.rS +
                Dbl.fin (numericValue r.2) * (Dbl.fin (numericValue r.1) - p.rM) *
                  (Dbl.fin (numericValue r.1) - q.rM)) ∧
              wtdVarStep (some p) r ≠ some p)) ∧
      (∀ v : sqlite3_value,
        sqlite3_value_numeric_type v = SQLITE_NULL ↔ v = sqlite3_value.null) := by
  refine ⟨?_, ?_, numeric_type_eq_null_iff⟩
  · intro h
    have hacc : accepted r = false := accepted_eq_false_of_null r h
    have hm : ∀ p : MeanCtx, wtdMeanStep (some p) r = some p :=
      fun p => wtdMeanStep_of_not_accepted p r hacc
    have hv : ∀ p : VarCtx, wtdVarStep (some p) r = some p :=
      fun p => wtdVarStep_of_not_accepted p r hacc
    refine ⟨hm, ?_, hv, ?_, ?_⟩
    · rw [wtdMeanStep_getD, hm, Option.getD_none]
    · rw [wtdVarStep_getD, hv, Option.getD_none]
    · intro before after
      have em := foldl_wtdMeanStep_insert r hm before after
      have ev := foldl_wtdVarStep_insert r hv before after
      refine ⟨em, ?_, ev, ?_, ?_⟩
      · rw [wtdMeanFinalize_getD, em, ← wtdMeanFinalize_getD]
      · rw [wtdVarFinalize_getD, ev, ← wtdVarFinalize_getD]
      · intro sqrt
        rw [wtdStdFinalize_getD, ev, ← wtdStdFinalize_getD]
  · intro h
    have hacc : accepted r = true := by
      simp only [accepted, decide_eq_true_eq]
      exact h
    constructor
    · intro p
      have hstep := wtdMeanStep_of_accepted p r hacc
      refine ⟨hstep, ?_⟩
      rw [hstep]
      intro heq
      have hc := congrArg MeanCtx.cnt (Option.some.inj heq)
      simp at hc
    · intro p
      have hstep := wtdVarStep_of_accepted p r hacc
      refine ⟨⟨_, hstep, rfl, rfl, rfl, rfl⟩, ?_⟩
      rw [hstep]
      intro heq
      have hc := congrArg VarCtx.cnt (Option.some.inj heq)
      simp at hc

/-- C5, instance: the row `(NULL, 1)`, alone and between the rows `(10, 1)` and
`(20, 1)`, is skipped; the row `('abc', 1)`, whose text converts to `0.0`, and
the row `(7, blob)`, whose blob converts to `3.0`, are accepted. -/
theorem null_row_skipped_witness :
    (sqlite3_value_numeric_type sqlite3_value.null = SQLITE_NULL ∨
        sqlite3_value_numeric_type (sqlite3_value.integer 1) = SQLITE_NULL) ∧
      wtdMeanStep none (sqlite3_value.null, sqlite3_value.integer 1) = some MeanCtx.zero ∧
      wtdMeanFinalize
          (([(sqlite3_value.integer 10, sqlite3_value.integer 1)] ++
              (sqlite3_value.null, sqlite3_value.integer 1) ::
                [(sqlite3_value.integer 20, sqlite3_value.integer 1)]).foldl wtdMeanStep none) =
        wtdMeanFinalize
          (([(sqlite3_value.integer 10, sqlite3_value.integer 1)] ++
              [(sqlite3_value.integer 20, sqlite3_value.integer 1)]).foldl wtdMeanStep none) ∧
      (sqlite3_value_numeric_type (sqlite3_value.text 0) ≠ SQLITE_NULL ∧
        sqlite3_value_numeric_type (sqlite3_value.integer 1) ≠ SQLITE_NULL) ∧
      wtdMeanStep (some MeanCtx.zero) (sqlite3_value.text 0, sqlite3_value.integer 1) ≠
        some MeanCtx.zero ∧
      (sqlite3_value_numeric_type (sqlite3_value.integer 7) ≠ SQLITE_NULL ∧
        sqlite3_value_numeric_type (sqlite3_value.blob 3) ≠ SQLITE_NULL) ∧
      wtdVarStep (some VarCtx.zero) (sqlite3_value.integer 7, sqlite3_value.blob 3) ≠
        some VarCtx.zero :=
  ⟨Or.inl rfl,
   ((null_row_skipped (sqlite3_value.null, sqlite3_value.integer 1)).1 (Or.inl rfl)).2.1,
   (((null_row_skipped (sqlite3_value.null, sqlite3_value.integer 1)).1
      (Or.inl rfl)).2.2.2.2
      [(sqlite3_value.integer 10, sqlite3_value.integer 1)]
      [(sqlite3_value.integer 20, sqlite3_value.integer 1)]).2.1,
   ⟨by decide, by decide⟩,
   (((null_row_skipped (sqlite3_value.text 0, sqlite3_value.integer 1)).2.1
      ⟨by decide, by decide⟩).1 MeanCtx.zero).2,
   ⟨by decide, by decide⟩,
   (((null_row_skipped (sqlite3_value.integer 7, sqlite3_value.blob 3)).2.1
      ⟨by decide, by decide⟩).2 VarCtx.zero).2⟩

/-- C5, as stated, fails: a text that does not look like a number is not
numeric (its datatype stays `SQLITE_TEXT`), yet the row that pairs it with
the weight `1` is not skipped: from the zero-filled contexts `wtdMeanStep` and
`wtdVarStep` both count it, with the value `0.0` the text converts to. -/
theorem text_row_not_skipped_counterexample :
    sqlite3_value_numeric_type (sqlite3_value.text 0) = SQLITE_TEXT ∧
      wtdMeanStep (some MeanCtx.zero) (sqlite3_value.text 0, sqlite3_value.integer 1) =
        some { xSum := Dbl.fin 0, wtSum := Dbl.fin 1, cnt := 1 } ∧
      wtdMeanStep (some MeanCtx.zero) (sqlite3_value.text 0, sqlite3_value.integer 1) ≠
        some MeanCtx.zero ∧
      wtdVarStep (some VarCtx.zero) (sqlite3_value.text 0, sqlite3_value.integer 1) =
        some { rM := Dbl.fin 0, rS := Dbl.fin 0, wtSum := Dbl.fin 1, cnt := 1 } ∧
      wtdVarStep (some VarCtx.zero) (sqlite3_value.text 0, sqlite3_value.integer 1) ≠
        some VarCtx.zero := by
  have hm : wtdMeanStep (some MeanCtx.zero) (sqlite3_value.text 0, sqlite3_value.integer 1) =
      some { xSum := Dbl.fin 0, wtSum := Dbl.fin 1, cnt := 1 } := by
    norm_num [wtdMeanStep, MeanCtx.zero, numericValue, sqlite3_value_numeric_type,
      sqlite3_value_double, SQLITE_NULL, SQLITE_INTEGER, SQLITE_TEXT]
  have hv : wtdVarStep (some VarCtx.zero) (sqlite3_value.text 0, sqlite3_value.integer 1) =
      some { rM := Dbl.fin 0, rS := Dbl.fin 0, wtSum := Dbl.fin 1, cnt := 1 } := by
    norm_num [wtdVarStep, VarCtx.zero, numericValue, sqlite3_value_numeric_type,
      sqlite3_value_double, SQLITE_NULL, SQLITE_INTEGER, SQLITE_TEXT]
  refine ⟨rfl, hm, ?_, hv, ?_⟩
  · rw [hm]
    simp [MeanCtx.zero]
  · rw [hv]
    simp [VarCtx.zero]

/-! ## Results on few or no rows -/

/-- C6: mean finalize is absent exactly when nothing was accepted. For every
stream fed to `wtdMeanStep` from no context, the empty one included,
`wtdMeanFinalize` emits no value if and only if the number of accepted rows is
`0`; otherwise it emits `xSum / wtSum` unguarded, which is `Σ(value·weight)`
divided by `Σ(weight)` as doubles, a non-finite double when the accepted
weights sum to zero, as for the single row `(5, 0)`. -/
theorem wtdMean_absent_iff (rows : List Row) :
    (wtdMeanFinalize (rows.foldl wtdMeanStep none) = none ↔
        (acceptedRows rows).length = 0) ∧
      wtdMeanFinalize (rows.foldl wtdMeanStep none) =
        (if (acceptedRows rows).length = 0 then none
         else some (((rows.foldl wtdMeanStep none).getD MeanCtx.zero).xSum /
           ((rows.foldl wtdMeanStep none).getD MeanCtx.zero).wtSum)) ∧
      ((rows.foldl wtdMeanStep none).getD MeanCtx.zero).xSum =
        Dbl.fin (weightedValueSum (acceptedRows rows)) ∧
      ((rows.foldl wtdMeanStep none).getD MeanCtx.zero).wtSum =
        Dbl.fin (weightSum (acceptedRows rows)) ∧
      wtdMeanFinalize (([] : List Row).foldl wtdMeanStep none) = none ∧
      wtdMeanFinalize
          ([(sqlite3_value.integer 5, sqlite3_value.integer 0)].foldl wtdMeanStep none) =
        some Dbl.nonfin := by
  refine ⟨?_, ?_, ?_, ?_, rfl, ?_⟩
  · rw [wtdMeanFinalize_foldl]
    by_cases h : (acceptedRows rows).length = 0
    · simp [h]
    · simp [h]
  · rw [wtdMeanFinalize_foldl, foldl_wtdMeanStep_zero]
  · rw [foldl_wtdMeanStep_zero]
  · rw [foldl_wtdMeanStep_zero]
  · norm_num [wtdMeanFinalize, wtdMeanStep, MeanCtx.zero, numericValue,
      sqlite3_value_numeric_type, sqlite3_value_double, SQLITE_NULL, SQLITE_INTEGER]

/-- C9: variance and standard deviation return a concrete zero, not absent,
for too few observations. For every stream fed to `wtdVarStep` from no context
with zero or exactly one accepted row, the empty stream included,
`wtdVarFinalize` and `wtdStdFinalize` both return `0.0`, whatever the accepted
row is and whatever `sqrt` is. -/
theorem wtdVar_wtdStd_zero_of_at_most_one (sqrt : Dbl → Dbl) (rows : List Row)
    (h : (acceptedRows rows).length ≤ 1) :
    wtdVarFinalize (rows.foldl wtdVarStep none) = some (Dbl.fin 0) ∧
      wtdStdFinalize sqrt (rows.foldl wtdVarStep none) = some (Dbl.fin 0) := by
  obtain ⟨q, hq, hc⟩ := foldl_wtdVarStep_cnt rows VarCtx.zero
  have hget : (rows.foldl wtdVarStep none).getD VarCtx.zero = q := by
    rw [foldl_wtdVarStep_getD, Option.getD_none, hq, Option.getD_some]
  have hle : ¬ q.cnt > 1 := by
    have h1 : ((acceptedRows rows).length : Int) ≤ 1 := by exact_mod_cast h
    have h2 : VarCtx.zero.cnt = 0 := rfl
    rw [hc, h2]
    omega
  constructor
  · rw [wtdVarFinalize_getD, hget]
    simp only [wtdVarFinalize, if_neg hle]
  · rw [wtdStdFinalize_getD, hget]
    simp only [wtdStdFinalize, if_neg hle]

/-- C9, instance: the single row `(7, 3)`, with `sqrtModel`. -/
theorem wtdVar_wtdStd_zero_of_at_most_one_witness :
    (acceptedRows [(sqlite3_value.integer 7, sqlite3_value.integer 3)]).length ≤ 1 ∧
      wtdVarFinalize
          ([(sqlite3_value.integer 7, sqlite3_value.integer 3)].foldl wtdVarStep none) =
        some (Dbl.fin 0) ∧
      wtdStdFinalize sqrtModel
          ([(sqlite3_value.integer 7, sqlite3_value.integer 3)].foldl wtdVarStep none) =
        some (Dbl.fin 0) :=
  ⟨by decide,
   wtdVar_wtdStd_zero_of_at_most_one sqrtModel
     [(sqlite3_value.integer 7, sqlite3_value.integer 3)] (by decide)⟩

/-! ## One Welford step -/

/-- C10: weighted Welford update. For every `VarCtx` state `p` (the
zero-filled one when the step is the first) and every accepted pair `(x, wt)`,
`wtdVarStep` produces `cnt' = cnt + 1`, `wtSum' = wtSum + wt`,
`rM' = rM + (wt / wtSum') * (x - rM)` and `rS' = rS + wt * (x - rM) * (x - rM')`:
the first deviation uses the mean before the update, the second factor the
mean after it. -/
theorem wtdVarStep_welford (context : Option VarCtx) (r : Row)
    (h : sqlite3_value_numeric_type r.1 ≠ SQLITE_NULL ∧
      sqlite3_value_numeric_type r.2 ≠ SQLITE_NULL) :
    ∃ q, wtdVarStep context r = some q ∧
      q.cnt = (context.getD VarCtx.zero).cnt + 1 ∧
      q.wtSum = (context.getD VarCtx.zero).wtSum + sqlite3_value_double r.2 ∧
      q.rM = (context.getD VarCtx.zero).rM +
        (sqlite3_value_double r.2 / q.wtSum) *
          (sqlite3_value_double r.1 - (context.getD VarCtx.zero).rM) ∧
      q.rS = (context.getD VarCtx.zero).rS +
        sqlite3_value_double r.2 *
            (sqlite3_value_double r.1 - (context.getD VarCtx.zero).rM) *
          (sqlite3_value_double r.1 - q.rM) := by
  have hacc : accepted r = true := by
    simp only [accepted, decide_eq_true_eq]
    exact h
  rw [wtdVarStep_getD]
  exact ⟨_, wtdVarStep_of_accepted _ r hacc, rfl, rfl, rfl, rfl⟩

/-- C10, instance: from `rM = 10, rS = 0, wtSum = 1, cnt = 1` the pair
`(20, 1)` leads to `rM = 15, rS = 50, wtSum = 2, cnt = 2`. -/
theorem wtdVarStep_welford_witness :
    (sqlite3_value_numeric_type (sqlite3_value.integer 20) ≠ SQLITE_NULL ∧
        sqlite3_value_numeric_type (sqlite3_value.integer 1) ≠ SQLITE_NULL) ∧
      (∃ q, wtdVarStep
            (some { rM := Dbl.fin 10, rS := Dbl.fin 0, wtSum := Dbl.fin 1, cnt := 1 })
            (sqlite3_value.integer 20, sqlite3_value.integer 1) = some q ∧
        q.cnt = 1 + 1 ∧
        q.wtSum = Dbl.fin 1 + sqlite3_value_double (sqlite3_value.integer 1) ∧
        q.rM = Dbl.fin 10 + (sqlite3_value_double (sqlite3_value.integer 1) / q.wtSum) *
          (sqlite3_value_double (sqlite3_value.integer 20) - Dbl.fin 10) ∧
        q.rS = Dbl.fin 0 + sqlite3_value_double (sqlite3_value.integer 1) *
            (sqlite3_value_double (sqlite3_value.integer 20) - Dbl.fin 10) *
          (sqlite3_value_double (sqlite3_value.integer 20) - q.rM)) ∧
      wtdVarStep
          (some { rM := Dbl.fin 10, rS := Dbl.fin 0, wtSum := Dbl.fin 1, cnt := 1 })
          (sqlite3_value.integer 20, sqlite3_value.integer 1) =
        some { rM := Dbl.fin 15, rS := Dbl.fin 50, wtSum := Dbl.fin 2, cnt := 2 } := by
  refine ⟨⟨by decide, by decide⟩,
    wtdVarStep_welford
      (some { rM := Dbl.fin 10, rS := Dbl.fin 0, wtSum := Dbl.fin 1, cnt := 1 })
      (sqlite3_value.integer 20, sqlite3_value.integer 1) ⟨by decide, by decide⟩, ?_⟩
  norm_num [wtdVarStep, numericValue, sqlite3_value_numeric_type, sqlite3_value_double,
    SQLITE_NULL, SQLITE_INTEGER]

/-! ## Invariants of the accumulators -/

/-- Strictly positive weights keep every running weight sum away from zero. -/
theorem runningWeightNonzero_of_pos (rows : List Row) (A : ℚ) (hA : 0 ≤ A)
    (hpos : ∀ r ∈ rows, 0 < numericValue r.2) : runningWeightNonzero A rows = true := by
  induction rows generalizing A with
  | nil => rfl
  | cons r rs ih =>
    have hr : 0 < numericValue r.2 := hpos r (List.mem_cons_self r rs)
    have hsum : 0 < A + numericValue r.2 := by linarith
    simp only [runningWeightNonzero, Bool.and_eq_true, decide_eq_true_eq]
    exact ⟨hsum.ne.symm, ih _ hsum.le fun r' hr' => hpos r' (List.mem_cons_of_mem r hr')⟩

/-- The sum of weighted squared deviations from a finite centre, through the sums. -/
theorem weightedSqDevSum_fin (rows : List Row) (m : ℚ) :
    weightedSqDevSum rows (Dbl.fin m) =
      Dbl.fin (weightedSquareSum rows - 2 * m * weightedValueSum rows +
        m ^ 2 * weightSum rows) := by
  unfold weightedSqDevSum
  simp only [sqlite3_value_double, Dbl.fin_sub_fin, Dbl.fin_mul_fin]
  rw [Dbl.sum_map_fin rows (fun r => numericValue r.2 *
    ((numericValue r.1 - m) * (numericValue r.1 - m))), sum_sq_dev]

/-- With non-negative weights the sum of weighted squared deviations is
non-negative. -/
theorem sum_sq_dev_nonneg (rows : List Row) (m : ℚ)
    (hnn : ∀ r ∈ rows, 0 ≤ numericValue r.2) :
    0 ≤ (rows.map fun r =>
      numericValue r.2 * ((numericValue r.1 - m) * (numericValue r.1 - m))).sum := by
  induction rows with
  | nil => simp
  | cons r rs ih =>
    rw [List.map_cons, List.sum_cons]
    have h1 : 0 ≤ numericValue r.2 := hnn r (List.mem_cons_self r rs)
    have h2 : 0 ≤ (numericValue r.1 - m) * (numericValue r.1 - m) := mul_self_nonneg _
    have h3 := ih fun r' hr' => hnn r' (List.mem_cons_of_mem r hr')
    have h4 := mul_nonneg h1 h2
    linarith

/-- The closed form `C - B²/A` of the Welford sum, as the sum of weighted
squared deviations from the mean `B/A`. -/
theorem sumsq_eq_dev (rows : List Row) (hW : weightSum rows ≠ 0) :
    weightedSquareSum rows - weightedValueSum rows ^ 2 / weightSum rows =
      weightedSquareSum rows -
          2 * (weightedValueSum rows / weightSum rows) * weightedValueSum rows +
        (weightedValueSum rows / weightSum rows) ^ 2 * weightSum rows := by
  field_simp
  ring

/-- C11, as amended: non-negativity of the variance accumulator. Starting from
the zero-filled `VarCtx`, after any sequence of `wtdVarStep` calls in which
every accepted weight is non-negative and every non-empty initial segment of
the accepted rows has a non-zero weight sum (so the first accepted weight is
strictly positive), `rS` is a finite double that is at least `0`. -/
theorem wtdVar_rS_nonneg (rows : List Row)
    (hnn : ∀ r ∈ acceptedRows rows, 0 ≤ numericValue r.2)
    (hrun : runningWeightNonzero 0 (acceptedRows rows) = true) :
    Dbl.nonneg ((rows.foldl wtdVarStep none).getD VarCtx.zero).rS = true := by
  rw [foldl_wtdVarStep_zero rows hrun]
  simp only [Dbl.nonneg, decide_eq_true_eq]
  rcases eq_or_ne (acceptedRows rows) [] with hnil | hne
  · rw [hnil]
    simp
  · have hW : weightSum (acceptedRows rows) ≠ 0 := by
      simpa using weightSum_ne_zero_of_running _ 0 hrun hne
    rw [sumsq_eq_dev _ hW, ← sum_sq_dev]
    exact sum_sq_dev_nonneg _ _ hnn

/-- C11, instance: the rows `(10, 1), (20, 1)`, where `rS = 50`. -/
theorem wtdVar_rS_nonneg_witness :
    (∀ r ∈ acceptedRows rowsTenTwenty, 0 ≤ numericValue r.2) ∧
      runningWeightNonzero 0 (acceptedRows rowsTenTwenty) = true ∧
      Dbl.nonneg ((rowsTenTwenty.foldl wtdVarStep none).getD VarCtx.zero).rS = true := by
  have hacc : acceptedRows rowsTenTwenty = rowsTenTwenty := by decide
  have hnn : ∀ r ∈ acceptedRows rowsTenTwenty, 0 ≤ numericValue r.2 := by
    intro r hr
    rw [hacc] at hr
    simp only [rowsTenTwenty, List.mem_cons, List.mem_singleton, List.not_mem_nil,
      or_false] at hr
    rcases hr with rfl | rfl <;> norm_num [numericValue]
  have hrun : runningWeightNonzero 0 (acceptedRows rowsTenTwenty) = true := by
    rw [hacc]
    norm_num [rowsTenTwenty, runningWeightNonzero, numericValue]
  exact ⟨hnn, hrun, wtdVar_rS_nonneg rowsTenTwenty hnn hrun⟩

/-- C11, as stated, fails: after the rows `(0, 2), (1, -1)` the accumulator
holds `rM = -1`, `rS = -2`, `wtSum = 1`, `cnt = 2`, so `rS` is negative. A
weight sum of zero breaks it as well: after the rows `(10, 0), (20, 1), (30, 1)`
`rS` is not a finite double. -/
theorem wtdVar_rS_negative_counterexample :
    rowsNegativeWeight.foldl wtdVarStep none =
        some { rM := Dbl.fin (-1), rS := Dbl.fin (-2), wtSum := Dbl.fin 1, cnt := 2 } ∧
      Dbl.nonneg ((rowsNegativeWeight.foldl wtdVarStep none).getD VarCtx.zero).rS = false ∧
      ((rowsZeroWeightFirst.foldl wtdVarStep none).getD VarCtx.zero).rS = Dbl.nonfin ∧
      Dbl.nonneg ((rowsZeroWeightFirst.foldl wtdVarStep none).getD VarCtx.zero).rS = false := by
  have h : rowsNegativeWeight.foldl wtdVarStep none =
      some { rM := Dbl.fin (-1), rS := Dbl.fin (-2), wtSum := Dbl.fin 1, cnt := 2 } := by
    norm_num [rowsNegativeWeight, wtdVarStep, VarCtx.zero, numericValue,
      sqlite3_value_numeric_type, sqlite3_value_double, SQLITE_NULL, SQLITE_INTEGER]
  have hz : ((rowsZeroWeightFirst.foldl wtdVarStep none).getD VarCtx.zero).rS = Dbl.nonfin := by
    norm_num [rowsZeroWeightFirst, wtdVarStep, VarCtx.zero, numericValue,
      sqlite3_value_numeric_type, sqlite3_value_double, SQLITE_NULL, SQLITE_INTEGER]
  refine ⟨h, ?_, hz, ?_⟩
  · rw [h]
    norm_num [Dbl.nonneg]
  · rw [hz]
    rfl

/-- C12: mean accumulator invariant. Starting from the zero-filled `MeanCtx`,
after any sequence of `wtdMeanStep` calls, `cnt` is the number of accepted rows
(hence `cnt ≥ 0`), `wtSum` is the sum of the accepted rows' weights and `xSum`
is the sum of value times weight over the accepted rows. -/
theorem wtdMean_accumulator_invariant (rows : List Row) :
    ((rows.foldl wtdMeanStep none).getD MeanCtx.zero).cnt =
        ((acceptedRows rows).length : Int) ∧
      0 ≤ ((rows.foldl wtdMeanStep none).getD MeanCtx.zero).cnt ∧
      ((rows.foldl wtdMeanStep none).getD MeanCtx.zero).wtSum =
        Dbl.fin (weightSum (acceptedRows rows)) ∧
      ((rows.foldl wtdMeanStep none).getD MeanCtx.zero).xSum =
        Dbl.fin (weightedValueSum (acceptedRows rows)) := by
  rw [foldl_wtdMeanStep_zero]
  exact ⟨rfl, Int.natCast_nonneg _, rfl, rfl⟩

/-- C13: no guard on the variance divisor. For every state with `cnt > 1` the
result of `wtdVarFinalize` is exactly `rS / (wtSum - 1)`, with no clamping;
and the rows `(0, 0.25), (1, 0.25)`, whose weights are positive and sum to
`0.5 < 1`, end with `cnt = 2`, `rS = 0.125`, `wtSum = 0.5`, so that the divisor
is `-0.5` and the variance returned is `-0.25`, a negative number. -/
theorem wtdVarFinalize_unguarded (p : VarCtx) (h : p.cnt > 1) :
    wtdVarFinalize (some p) = some (p.rS / (p.wtSum - Dbl.fin 1)) ∧
      (∀ r ∈ acceptedRows rowsQuarterWeights, 0 < numericValue r.2) ∧
      weightSum (acceptedRows rowsQuarterWeights) < 1 ∧
      rowsQuarterWeights.foldl wtdVarStep none =
        some { rM := Dbl.fin (1 / 2), rS := Dbl.fin (1 / 8), wtSum := Dbl.fin (1 / 2),
               cnt := 2 } ∧
      wtdVarFinalize (rowsQuarterWeights.foldl wtdVarStep none) =
        some (Dbl.fin (1 / 8) / (Dbl.fin (1 / 2) - Dbl.fin 1)) ∧
      wtdVarFinalize (rowsQuarterWeights.foldl wtdVarStep none) = some (Dbl.fin (-1 / 4)) := by
  have hacc : acceptedRows rowsQuarterWeights = rowsQuarterWeights := by
    simp [acceptedRows, rowsQuarterWeights, accepted, sqlite3_value_numeric_type, SQLITE_NULL,
      SQLITE_FLOAT]
  have hfold : rowsQuarterWeights.foldl wtdVarStep none =
      some { rM := Dbl.fin (1 / 2), rS := Dbl.fin (1 / 8), wtSum := Dbl.fin (1 / 2),
             cnt := 2 } := by
    norm_num [rowsQuarterWeights, wtdVarStep, VarCtx.zero, numericValue,
      sqlite3_value_numeric_type, sqlite3_value_double, SQLITE_NULL, SQLITE_FLOAT]
  refine ⟨?_, ?_, ?_, hfold, ?_, ?_⟩
  · simp only [wtdVarFinalize, if_pos h]
  · intro r hr
    rw [hacc] at hr
    simp only [rowsQuarterWeights, List.mem_cons, List.mem_singleton, List.not_mem_nil,
      or_false] at hr
    rcases hr with rfl | rfl <;> norm_num [numericValue]
  · rw [hacc]
    norm_num [rowsQuarterWeights, weightSum, numericValue]
  · rw [hfold]
    simp [wtdVarFinalize]
  · rw [hfold]
    norm_num [wtdVarFinalize]

/-- C13, instance: the state `rM = 0.5, rS = 0.125, wtSum = 0.5, cnt = 2`
reached by the rows `(0, 0.25), (1, 0.25)`. -/
theorem wtdVarFinalize_unguarded_witness :
    ({ rM := Dbl.fin (1 / 2), rS := Dbl.fin (1 / 8), wtSum := Dbl.fin (1 / 2),
       cnt := 2 } : VarCtx).cnt > 1 ∧
      wtdVarFinalize
          (some { rM := Dbl.fin (1 / 2), rS := Dbl.fin (1 / 8), wtSum := Dbl.fin (1 / 2),
                  cnt := 2 }) =
        some (Dbl.fin (1 / 8) / (Dbl.fin (1 / 2) - Dbl.fin 1)) :=
  ⟨by decide,
   (wtdVarFinalize_unguarded
      { rM := Dbl.fin (1 / 2), rS := Dbl.fin (1 / 8), wtSum := Dbl.fin (1 / 2), cnt := 2 }
      (by decide)).1⟩

/-- The mean and the sum of squared deviations held by the accumulator after a
stream whose running weight sums stay non-zero and that has an accepted row. -/
theorem welford_state (rows : List Row)
    (hrun : runningWeightNonzero 0 (acceptedRows rows) = true)
    (hne : acceptedRows rows ≠ []) :
    ((rows.foldl wtdVarStep none).getD VarCtx.zero).rM = weightedMean (acceptedRows rows) ∧
      ((rows.foldl wtdVarStep none).getD VarCtx.zero).rS =
        weightedSqDevSum (acceptedRows rows)
          ((rows.foldl wtdVarStep none).getD VarCtx.zero).rM := by
  have hW : weightSum (acceptedRows rows) ≠ 0 := by
    simpa using weightSum_ne_zero_of_running _ 0 hrun hne
  rw [foldl_wtdVarStep_zero rows hrun]
  constructor
  · simp only [weightedMean, Dbl.fin_div_fin_of_ne _ hW]
  · simp only [weightedSqDevSum_fin]
    rw [sumsq_eq_dev _ hW]

theorem mem_acceptedRows_of_mem_take (rows : List Row) (n : Nat) (r : Row)
    (hr : r ∈ acceptedRows (rows.take n)) : r ∈ acceptedRows rows := by
  simp only [acceptedRows, List.mem_filter] at hr ⊢
  exact ⟨List.mem_of_mem_take hr.1, hr.2⟩

/-- C14: Welford state invariant. Starting from the zero-filled `VarCtx`, for a
stream whose accepted weights are all strictly positive, after every step that
leaves at least one accepted row behind (the first `n` rows of the stream, for
every `n`), `rM` is the weighted mean `Σ(value·weight) / Σ(weight)` of the
accepted rows seen so far, a finite double, and `rS` is
`Σ weight·(value − rM)²` over those rows. -/
theorem welford_state_invariant (rows : List Row)
    (hpos : ∀ r ∈ acceptedRows rows, 0 < numericValue r.2)
    (n : Nat) (hne : acceptedRows (rows.take n) ≠ []) :
    (((rows.take n).foldl wtdVarStep none).getD VarCtx.zero).rM =
        weightedMean (acceptedRows (rows.take n)) ∧
      weightedMean (acceptedRows (rows.take n)) =
        Dbl.fin (weightedValueSum (acceptedRows (rows.take n)) /
          weightSum (acceptedRows (rows.take n))) ∧
      (((rows.take n).foldl wtdVarStep none).getD VarCtx.zero).rS =
        weightedSqDevSum (acceptedRows (rows.take n))
          (((rows.take n).foldl wtdVarStep none).getD VarCtx.zero).rM := by
  have hpos' : ∀ r ∈ acceptedRows (rows.take n), 0 < numericValue r.2 :=
    fun r hr => hpos r (mem_acceptedRows_of_mem_take rows n r hr)
  have hrun : runningWeightNonzero 0 (acceptedRows (rows.take n)) = true :=
    runningWeightNonzero_of_pos _ 0 le_rfl hpos'
  have hW : weightSum (acceptedRows (rows.take n)) ≠ 0 := by
    simpa using weightSum_ne_zero_of_running _ 0 hrun hne
  obtain ⟨h1, h2⟩ := welford_state (rows.take n) hrun hne
  refine ⟨h1, ?_, h2⟩
  simp only [weightedMean, Dbl.fin_div_fin_of_ne _ hW]

/-- C14, instance: the rows `(10, 1), (20, 1)` after both steps, where
`rM = 15` and `rS = 50`. -/
theorem welford_state_invariant_witness :
    (∀ r ∈ acceptedRows rowsTenTwenty, 0 < numericValue r.2) ∧
      acceptedRows (rowsTenTwenty.take 2) ≠ [] ∧
      (((rowsTenTwenty.take 2).foldl wtdVarStep none).getD VarCtx.zero).rM =
        weightedMean (acceptedRows (rowsTenTwenty.take 2)) ∧
      weightedMean (acceptedRows (rowsTenTwenty.take 2)) =
        Dbl.fin (weightedValueSum (acceptedRows (rowsTenTwenty.take 2)) /
          weightSum (acceptedRows (rowsTenTwenty.take 2))) ∧
      (((rowsTenTwenty.take 2).foldl wtdVarStep none).getD VarCtx.zero).rS =
        weightedSqDevSum (acceptedRows (rowsTenTwenty.take 2))
          (((rowsTenTwenty.take 2).foldl wtdVarStep none).getD VarCtx.zero).rM := by
  have hacc : acceptedRows rowsTenTwenty = rowsTenTwenty := by decide
  have hpos : ∀ r ∈ acceptedRows rowsTenTwenty, 0 < numericValue r.2 := by
    intro r hr
    rw [hacc] at hr
    simp only [rowsTenTwenty, List.mem_cons, List.mem_singleton, List.not_mem_nil,
      or_false] at hr
    rcases hr with rfl | rfl <;> norm_num [numericValue]
  have hne : acceptedRows (rowsTenTwenty.take 2) ≠ [] := by decide
  exact ⟨hpos, hne, welford_state_invariant rowsTenTwenty hpos 2 hne⟩

/-! ## Results as functions of the sums -/

theorem acceptedRows_append (l₁ l₂ : List Row) :
    acceptedRows (l₁ ++ l₂) = acceptedRows l₁ ++ acceptedRows l₂ := by
  simp [acceptedRows]

theorem weightSum_append (l₁ l₂ : List Row) :
    weightSum (l₁ ++ l₂) = weightSum l₁ + weightSum l₂ := by
  simp [weightSum]

theorem weightedValueSum_append (l₁ l₂ : List Row) :
    weightedValueSum (l₁ ++ l₂) = weightedValueSum l₁ + weightedValueSum l₂ := by
  simp [weightedValueSum]

theorem weightedSquareSum_append (l₁ l₂ : List Row) :
    weightedSquareSum (l₁ ++ l₂) = weightedSquareSum l₁ + weightedSquareSum l₂ := by
  simp [weightedSquareSum]

theorem weightSum_replicate (k : Nat) (r : Row) :
    weightSum (List.replicate k r) = k * numericValue r.2 := by
  simp [weightSum]

theorem weightedValueSum_replicate (k : Nat) (r : Row) :
    weightedValueSum (List.replicate k r) = k * (numericValue r.1 * numericValue r.2) := by
  simp [weightedValueSum]

theorem weightedSquareSum_replicate (k : Nat) (r : Row) :
    weightedSquareSum (List.replicate k r) = k * (numericValue r.2 * numericValue r.1 ^ 2) := by
  simp [weightedSquareSum]

/-- The result of `wtd_var` on a stream whose running weight sums stay
non-zero. -/
theorem wtdVarFinalize_foldl (rows : List Row)
    (hrun : runningWeightNonzero 0 (acceptedRows rows) = true) :
    wtdVarFinalize (rows.foldl wtdVarStep none) =
      if ((acceptedRows rows).length : Int) > 1 then
        some (Dbl.fin (weightedSquareSum (acceptedRows rows) -
            weightedValueSum (acceptedRows rows) ^ 2 / weightSum (acceptedRows rows)) /
          Dbl.fin (weightSum (acceptedRows rows) - 1))
      else some (Dbl.fin 0) := by
  rw [wtdVarFinalize_getD, foldl_wtdVarStep_zero rows hrun]
  simp only [wtdVarFinalize, Dbl.fin_sub_fin]

/-- The result of `wtd_sd` on a stream whose running weight sums stay
non-zero. -/
theorem wtdStdFinalize_foldl (sqrt : Dbl → Dbl) (rows : List Row)
    (hrun : runningWeightNonzero 0 (acceptedRows rows) = true) :
    wtdStdFinalize sqrt (rows.foldl wtdVarStep none) =
      if ((acceptedRows rows).length : Int) > 1 then
        some (sqrt (Dbl.fin (weightedSquareSum (acceptedRows rows) -
            weightedValueSum (acceptedRows rows) ^ 2 / weightSum (acceptedRows rows)) /
          Dbl.fin (weightSum (acceptedRows rows) - 1)))
      else some (Dbl.fin 0) := by
  rw [wtdStdFinalize_getD, foldl_wtdVarStep_zero rows hrun]
  simp only [wtdStdFinalize, Dbl.fin_sub_fin]

/-- The result of `wtd_freq` on a stream. -/
theorem wtdFreqFinalize_foldl (ws : List sqlite3_value) :
    wtdFreqFinalize (ws.foldl wtdFreqStep none) =
      if ws.length = 0 then none
      else some (Dbl.ofInt (ws.length : Int) *
        (Dbl.fin (freqWeightSum ws) / Dbl.ofInt (ws.length : Int))) := by
  cases ws with
  | nil => rfl
  | cons v vs =>
    have hpos : (0 : Int) < ((v :: vs).length : Int) := by
      rw [List.length_cons]
      exact_mod_cast Nat.succ_pos _
    rw [foldl_wtdFreqStep_none]
    simp only [wtdFreqFinalize, gt_iff_lt, if_pos hpos]
    simp

/-- The variance quotient of `k ≥ 2` copies of one row of weight `1`. -/
theorem var_quotient_single_value (x : ℚ) (k : Nat) (hk : 2 ≤ k) :
    Dbl.fin ((k : ℚ) * x ^ 2 - (x * k) ^ 2 / k) / Dbl.fin ((k : ℚ) - 1) = Dbl.fin 0 := by
  have hk0 : (k : ℚ) ≠ 0 := by
    have : (2 : ℚ) ≤ k := by exact_mod_cast hk
    linarith
  have hk1 : (k : ℚ) - 1 ≠ 0 := by
    have : (2 : ℚ) ≤ k := by exact_mod_cast hk
    intro h
    linarith
  have hnum : (k : ℚ) * x ^ 2 - (x * k) ^ 2 / k = 0 := by
    field_simp
    ring
  rw [hnum, Dbl.fin_div_fin_of_ne _ hk1, zero_div]

/-! ## Replication of a row of integer weight -/

theorem accepted_of_value_weight (x : sqlite3_value) (i : Int)
    (hx : sqlite3_value_numeric_type x ≠ SQLITE_NULL) :
    accepted (x, sqlite3_value.integer i) = true := by
  simp only [accepted, decide_eq_true_eq]
  exact ⟨hx, by simp [sqlite3_value_numeric_type, SQLITE_INTEGER, SQLITE_NULL]⟩

/-- The accepted rows of a stream around one accepted row `(x, k)`. -/
theorem acceptedRows_streamWithRow (before after : List Row) (x : sqlite3_value) (k : Nat)
    (hx : sqlite3_value_numeric_type x ≠ SQLITE_NULL) :
    acceptedRows (streamWithRow before after x k) =
      acceptedRows before ++ (x, sqlite3_value.integer k) :: acceptedRows after := by
  rw [streamWithRow, acceptedRows_append,
    acceptedRows_cons_of_accepted _ _ (accepted_of_value_weight x k hx)]

/-- The accepted rows of a stream around `k` copies of the accepted row `(x, 1)`. -/
theorem acceptedRows_streamWithCopies (before after : List Row) (x : sqlite3_value) (k : Nat)
    (hx : sqlite3_value_numeric_type x ≠ SQLITE_NULL) :
    acceptedRows (streamWithCopies before after x k) =
      acceptedRows before ++
        (List.replicate k (x, sqlite3_value.integer 1) ++ acceptedRows after) := by
  rw [streamWithCopies, acceptedRows_append, acceptedRows_append]
  congr 2
  exact List.filter_replicate_of_pos (accepted_of_value_weight x 1 hx)

/-- C15: frequency-weight replication. For every stream whose accepted rows
have strictly positive weights and every positive integer `k`, replacing one
accepted row `(x, k)` by `k` consecutive rows `(x, 1)` leaves the results of
`wtdMeanFinalize`, `wtdVarFinalize` and `wtdStdFinalize` unchanged. The library
function `sqrt` is any function with `sqrt(0.0) = 0.0`. -/
theorem replicate_weight_invariant (sqrt : Dbl → Dbl) (h0 : sqrt (Dbl.fin 0) = Dbl.fin 0)
    (before after : List Row) (x : sqlite3_value) (k : Nat) (hk : 0 < k)
    (hx : sqlite3_value_numeric_type x ≠ SQLITE_NULL)
    (hpos : ∀ r ∈ acceptedRows (before ++ after), 0 < numericValue r.2) :
    wtdMeanFinalize ((streamWithRow before after x k).foldl wtdMeanStep none) =
        wtdMeanFinalize ((streamWithCopies before after x k).foldl wtdMeanStep none) ∧
      wtdVarFinalize ((streamWithRow before after x k).foldl wtdVarStep none) =
        wtdVarFinalize ((streamWithCopies before after x k).foldl wtdVarStep none) ∧
      wtdStdFinalize sqrt ((streamWithRow before after x k).foldl wtdVarStep none) =
        wtdStdFinalize sqrt ((streamWithCopies before after x k).foldl wtdVarStep none) := by
  have hposb : ∀ r ∈ acceptedRows before, 0 < numericValue r.2 := by
    intro r hr
    apply hpos r
    rw [acceptedRows_append]
    exact List.mem_append_left _ hr
  have hposa : ∀ r ∈ acceptedRows after, 0 < numericValue r.2 := by
    intro r hr
    apply hpos r
    rw [acceptedRows_append]
    exact List.mem_append_right _ hr
  have haccA := acceptedRows_streamWithRow before after x k hx
  have haccB := acceptedRows_streamWithCopies before after x k hx
  -- the accepted weights of both streams are strictly positive
  have hposA : ∀ r ∈ acceptedRows (streamWithRow before after x k),
      0 < numericValue r.2 := by
    intro r hr
    rw [haccA, List.mem_append, List.mem_cons] at hr
    rcases hr with hr | rfl | hr
    · exact hposb r hr
    · simpa [numericValue] using hk
    · exact hposa r hr
  have hposB : ∀ r ∈ acceptedRows (streamWithCopies before after x k),
      0 < numericValue r.2 := by
    intro r hr
    rw [haccB, List.mem_append, List.mem_append] at hr
    rcases hr with hr | hr | hr
    · exact hposb r hr
    · rw [List.eq_of_mem_replicate hr]
      norm_num [numericValue]
    · exact hposa r hr
  have hrunA := runningWeightNonzero_of_pos _ 0 le_rfl hposA
  have hrunB := runningWeightNonzero_of_pos _ 0 le_rfl hposB
  -- the three sums of the two streams agree
  have hW : weightSum (acceptedRows (streamWithCopies before after x k)) =
      weightSum (acceptedRows (streamWithRow before after x k)) := by
    rw [haccA, haccB, weightSum_append, weightSum_append, weightSum_append, weightSum_cons,
      weightSum_replicate]
    simp [numericValue]
  have hB : weightedValueSum (acceptedRows (streamWithCopies before after x k)) =
      weightedValueSum (acceptedRows (streamWithRow before after x k)) := by
    rw [haccA, haccB, weightedValueSum_append, weightedValueSum_append,
      weightedValueSum_append, weightedValueSum_cons, weightedValueSum_replicate]
    simp [numericValue, mul_comm]
  have hC : weightedSquareSum (acceptedRows (streamWithCopies before after x k)) =
      weightedSquareSum (acceptedRows (streamWithRow before after x k)) := by
    rw [haccA, haccB, weightedSquareSum_append, weightedSquareSum_append,
      weightedSquareSum_append, weightedSquareSum_cons, weightedSquareSum_replicate]
    simp [numericValue]
  -- the counts differ by `k - 1`
  have hlenA : (acceptedRows (streamWithRow before after x k)).length =
      (acceptedRows before).length + (acceptedRows after).length + 1 := by
    rw [haccA, List.length_append, List.length_cons]
    omega
  have hlenB : (acceptedRows (streamWithCopies before after x k)).length =
      (acceptedRows before).length + (acceptedRows after).length + k := by
    rw [haccB, List.length_append, List.length_append, List.length_replicate]
    omega
  have hmono : ((acceptedRows (streamWithRow before after x k)).length : Int) > 1 →
      ((acceptedRows (streamWithCopies before after x k)).length : Int) > 1 := by
    intro h
    have h' : (acceptedRows (streamWithRow before after x k)).length > 1 := by
      exact_mod_cast h
    have : (acceptedRows (streamWithCopies before after x k)).length > 1 := by
      omega
    exact_mod_cast this
  -- when only the copies pass the guard `cnt > 1`, their quotient is `0.0`
  have hzero : ¬ ((acceptedRows (streamWithRow before after x k)).length : Int) > 1 →
      ((acceptedRows (streamWithCopies before after x k)).length : Int) > 1 →
      Dbl.fin (weightedSquareSum (acceptedRows (streamWithRow before after x k)) -
          weightedValueSum (acceptedRows (streamWithRow before after x k)) ^ 2 /
            weightSum (acceptedRows (streamWithRow before after x k))) /
        Dbl.fin (weightSum (acceptedRows (streamWithRow before after x k)) - 1) =
      Dbl.fin 0 := by
    intro hA1 hB1
    have hA1' : ¬ (acceptedRows (streamWithRow before after x k)).length > 1 := by
      exact_mod_cast hA1
    have hb : acceptedRows before = [] := by
      apply List.eq_nil_of_length_eq_zero
      omega
    have ha : acceptedRows after = [] := by
      apply List.eq_nil_of_length_eq_zero
      omega
    have hk2 : 2 ≤ k := by
      have h2 : (acceptedRows (streamWithCopies before after x k)).length > 1 := by
        exact_mod_cast hB1
      rw [hlenB, hb, ha] at h2
      simp at h2
      omega
    rw [haccA, hb, ha]
    simp only [List.nil_append, weightedSquareSum_cons, weightedValueSum_cons, weightSum_cons,
      weightedSquareSum_nil, weightedValueSum_nil, weightSum_nil, add_zero, numericValue,
      Int.cast_natCast]
    exact var_quotient_single_value (numericValue x) k hk2
  refine ⟨?_, ?_, ?_⟩
  · rw [wtdMeanFinalize_foldl, wtdMeanFinalize_foldl, hW, hB]
    have h1 : (acceptedRows (streamWithRow before after x k)).length ≠ 0 := by
      omega
    have h2 : (acceptedRows (streamWithCopies before after x k)).length ≠ 0 := by
      omega
    rw [if_neg h1, if_neg h2]
  · rw [wtdVarFinalize_foldl _ hrunA, wtdVarFinalize_foldl _ hrunB, hW, hB, hC]
    by_cases hA1 : ((acceptedRows (streamWithRow before after x k)).length : Int) > 1
    · rw [if_pos hA1, if_pos (hmono hA1)]
    · rw [if_neg hA1]
      by_cases hB1 : ((acceptedRows (streamWithCopies before after x k)).length : Int) > 1
      · rw [if_pos hB1, hzero hA1 hB1]
      · rw [if_neg hB1]
  · rw [wtdStdFinalize_foldl _ _ hrunA, wtdStdFinalize_foldl _ _ hrunB, hW, hB, hC]
    by_cases hA1 : ((acceptedRows (streamWithRow before after x k)).length : Int) > 1
    · rw [if_pos hA1, if_pos (hmono hA1)]
    · rw [if_neg hA1]
      by_cases hB1 : ((acceptedRows (streamWithCopies before after x k)).length : Int) > 1
      · rw [if_pos hB1, hzero hA1 hB1, h0]
      · rw [if_neg hB1]

/-- C15, instance: the row `(20, 2)` between the rows `(10, 1)` and `(30, 1)`,
against two rows `(20, 1)` in its place, with `sqrtModel`. -/
theorem replicate_weight_invariant_witness :
    sqrtModel (Dbl.fin 0) = Dbl.fin 0 ∧ 0 < 2 ∧
      sqlite3_value_numeric_type (sqlite3_value.integer 20) ≠ SQLITE_NULL ∧
      (∀ r ∈ acceptedRows
          ([(sqlite3_value.integer 10, sqlite3_value.integer 1)] ++
            [(sqlite3_value.integer 30, sqlite3_value.integer 1)]),
        0 < numericValue r.2) ∧
      wtdMeanFinalize
          ((streamWithRow [(sqlite3_value.integer 10, sqlite3_value.integer 1)]
            [(sqlite3_value.integer 30, sqlite3_value.integer 1)]
            (sqlite3_value.integer 20) 2).foldl wtdMeanStep none) =
        wtdMeanFinalize
          ((streamWithCopies [(sqlite3_value.integer 10, sqlite3_value.integer 1)]
            [(sqlite3_value.integer 30, sqlite3_value.integer 1)]
            (sqlite3_value.integer 20) 2).foldl wtdMeanStep none) ∧
      wtdVarFinalize
          ((streamWithRow [(sqlite3_value.integer 10, sqlite3_value.integer 1)]
            [(sqlite3_value.integer 30, sqlite3_value.integer 1)]
            (sqlite3_value.integer 20) 2).foldl wtdVarStep none) =
        wtdVarFinalize
          ((streamWithCopies [(sqlite3_value.integer 10, sqlite3_value.integer 1)]
            [(sqlite3_value.integer 30, sqlite3_value.integer 1)]
            (sqlite3_value.integer 20) 2).foldl wtdVarStep none) ∧
      wtdStdFinalize sqrtModel
          ((streamWithRow [(sqlite3_value.integer 10, sqlite3_value.integer 1)]
            [(sqlite3_value.integer 30, sqlite3_value.integer 1)]
            (sqlite3_value.integer 20) 2).foldl wtdVarStep none) =
        wtdStdFinalize sqrtModel
          ((streamWithCopies [(sqlite3_value.integer 10, sqlite3_value.integer 1)]
            [(sqlite3_value.integer 30, sqlite3_value.integer 1)]
            (sqlite3_value.integer 20) 2).foldl wtdVarStep none) := by
  have h0 : sqrtModel (Dbl.fin 0) = Dbl.fin 0 := by simp [sqrtModel]
  have hx : sqlite3_value_numeric_type (sqlite3_value.integer 20) ≠ SQLITE_NULL := by decide
  have hpos : ∀ r ∈ acceptedRows
      ([(sqlite3_value.integer 10, sqlite3_value.integer 1)] ++
        [(sqlite3_value.integer 30, sqlite3_value.integer 1)]),
      0 < numericValue r.2 := by
    intro r hr
    have hacc : acceptedRows
        ([(sqlite3_value.integer 10, sqlite3_value.integer 1)] ++
          [(sqlite3_value.integer 30, sqlite3_value.integer 1)]) =
        [(sqlite3_value.integer 10, sqlite3_value.integer 1),
         (sqlite3_value.integer 30, sqlite3_value.integer 1)] := by decide
    rw [hacc] at hr
    simp only [List.mem_cons, List.mem_singleton, List.not_mem_nil, or_false] at hr
    rcases hr with rfl | rfl <;> norm_num [numericValue]
  exact ⟨h0, by decide, hx, hpos,
    replicate_weight_invariant sqrtModel h0
      [(sqlite3_value.integer 10, sqlite3_value.integer 1)]
      [(sqlite3_value.integer 30, sqlite3_value.integer 1)]
      (sqlite3_value.integer 20) 2 (by decide) hx hpos⟩

/-! ## Order of the rows -/

theorem acceptedRows_perm {rows rows' : List Row} (hperm : rows.Perm rows') :
    (acceptedRows rows).Perm (acceptedRows rows') :=
  hperm.filter accepted

theorem weightSum_perm {l l' : List Row} (h : l.Perm l') : weightSum l = weightSum l' :=
  (h.map fun r : Row => numericValue r.2).sum_eq

theorem weightedValueSum_perm {l l' : List Row} (h : l.Perm l') :
    weightedValueSum l = weightedValueSum l' :=
  (h.map fun r : Row => numericValue r.1 * numericValue r.2).sum_eq

theorem weightedSquareSum_perm {l l' : List Row} (h : l.Perm l') :
    weightedSquareSum l = weightedSquareSum l' :=
  (h.map fun r : Row => numericValue r.2 * numericValue r.1 ^ 2).sum_eq

theorem freqWeightSum_perm {ws ws' : List sqlite3_value} (h : ws.Perm ws') :
    freqWeightSum ws = freqWeightSum ws' :=
  (h.map numericValue).sum_eq

/-- C16: order independence in exact arithmetic. For every stream and every
permutation of it, `wtdMeanFinalize` and `wtdFreqFinalize` return the same
result, absent or present and with the same value, on the permuted stream as
on the original; and when all accepted weights are strictly positive,
`wtdVarFinalize` does too. -/
theorem order_independent (rows rows' : List Row) (hperm : rows.Perm rows')
    (ws ws' : List sqlite3_value) (hw : ws.Perm ws') :
    wtdMeanFinalize (rows.foldl wtdMeanStep none) =
        wtdMeanFinalize (rows'.foldl wtdMeanStep none) ∧
      wtdFreqFinalize (ws.foldl wtdFreqStep none) =
        wtdFreqFinalize (ws'.foldl wtdFreqStep none) ∧
      ((∀ r ∈ acceptedRows rows, 0 < numericValue r.2) →
        wtdVarFinalize (rows.foldl wtdVarStep none) =
          wtdVarFinalize (rows'.foldl wtdVarStep none)) := by
  have hacc := acceptedRows_perm hperm
  refine ⟨?_, ?_, ?_⟩
  · rw [wtdMeanFinalize_foldl, wtdMeanFinalize_foldl, hacc.length_eq, weightSum_perm hacc,
      weightedValueSum_perm hacc]
  · rw [wtdFreqFinalize_foldl, wtdFreqFinalize_foldl, hw.length_eq, freqWeightSum_perm hw]
  · intro hpos
    have hpos' : ∀ r ∈ acceptedRows rows', 0 < numericValue r.2 :=
      fun r hr => hpos r (hacc.mem_iff.mpr hr)
    rw [wtdVarFinalize_foldl _ (runningWeightNonzero_of_pos _ 0 le_rfl hpos),
      wtdVarFinalize_foldl _ (runningWeightNonzero_of_pos _ 0 le_rfl hpos'), hacc.length_eq,
      weightSum_perm hacc, weightedValueSum_perm hacc, weightedSquareSum_perm hacc]

/-- C16, instance: the rows `(10, 1), (20, 1)` and the weights
`1, 2, 3, NULL`, each against its reversal. -/
theorem order_independent_witness :
    rowsTenTwenty.Perm rowsTenTwenty.reverse ∧
      weightsOneTwoThreeNull.Perm weightsOneTwoThreeNull.reverse ∧
      (∀ r ∈ acceptedRows rowsTenTwenty, 0 < numericValue r.2) ∧
      wtdMeanFinalize (rowsTenTwenty.foldl wtdMeanStep none) =
        wtdMeanFinalize (rowsTenTwenty.reverse.foldl wtdMeanStep none) ∧
      wtdFreqFinalize (weightsOneTwoThreeNull.foldl wtdFreqStep none) =
        wtdFreqFinalize (weightsOneTwoThreeNull.reverse.foldl wtdFreqStep none) ∧
      wtdVarFinalize (rowsTenTwenty.foldl wtdVarStep none) =
        wtdVarFinalize (rowsTenTwenty.reverse.foldl wtdVarStep none) := by
  have hacc : acceptedRows rowsTenTwenty = rowsTenTwenty := by decide
  have hpos : ∀ r ∈ acceptedRows rowsTenTwenty, 0 < numericValue r.2 := by
    intro r hr
    rw [hacc] at hr
    simp only [rowsTenTwenty, List.mem_cons, List.mem_singleton, List.not_mem_nil,
      or_false] at hr
    rcases hr with rfl | rfl <;> norm_num [numericValue]
  have hp1 : rowsTenTwenty.Perm rowsTenTwenty.reverse := (List.reverse_perm _).symm
  have hp2 : weightsOneTwoThreeNull.Perm weightsOneTwoThreeNull.reverse :=
    (List.reverse_perm _).symm
  have h := order_independent rowsTenTwenty rowsTenTwenty.reverse hp1
    weightsOneTwoThreeNull weightsOneTwoThreeNull.reverse hp2
  exact ⟨hp1, hp2, hpos, h.1, h.2.1, h.2.2 hpos⟩

/-! ## The frequency result and the numeric weights -/

/-- The converted weights of a stream split into those of the numeric weights
and those of the others. -/
theorem freqWeightSum_split (ws : List sqlite3_value) :
    freqWeightSum ws = numericWeightSum ws + otherWeightSum ws := by
  induction ws with
  | nil => simp [freqWeightSum, numericWeightSum, otherWeightSum]
  | cons v vs ih =>
    simp only [numericWeightSum, otherWeightSum, freqWeightSum, List.map_cons,
      List.sum_cons] at ih ⊢
    by_cases hv : isNumeric v = true
    · simp only [List.filter_cons, hv, Bool.not_true, if_true, List.map_cons, List.sum_cons]
      rw [ih]
      simp only [Bool.false_eq_true, if_false]
      ring
    · have hv' : isNumeric v = false := by simpa using hv
      simp only [List.filter_cons, hv', Bool.not_false, if_true, List.map_cons, List.sum_cons]
      rw [ih]
      simp only [Bool.false_eq_true, if_false]
      ring

/-- Weights that are not numeric and convert to `0.0` add nothing. -/
theorem otherWeightSum_eq_zero (ws : List sqlite3_value)
    (hz : ∀ v ∈ ws, isNumeric v = false → numericValue v = 0) : otherWeightSum ws = 0 := by
  induction ws with
  | nil => simp [otherWeightSum, freqWeightSum]
  | cons v vs ih =>
    have ih' := ih fun u hu => hz u (List.mem_cons_of_mem v hu)
    simp only [otherWeightSum, freqWeightSum] at ih' ⊢
    by_cases hv : isNumeric v = true
    · simp only [List.filter_cons, hv, Bool.not_true, Bool.false_eq_true, if_false]
      exact ih'
    · have hv' : isNumeric v = false := by simpa using hv
      simp only [List.filter_cons, hv', Bool.not_false, if_true, List.map_cons, List.sum_cons]
      rw [ih', hz v (List.mem_cons_self v vs) hv', add_zero]

/-- C8, as amended: frequency result. For every stream fed to `wtdFreqStep`
from no context with at least one numeric weight, `wtdFreqFinalize` returns
`cnt * (sumWt / cnt)` of the final accumulator, and this double is the sum of
the numeric weights plus the numbers that the other weights of the stream (a
text, a blob; NULL converts to `0.0`) convert to. It is the sum of the numeric
weights when every weight that is not numeric converts to `0.0`. -/
theorem wtdFreq_result (ws : List sqlite3_value) (h : ∃ v ∈ ws, isNumeric v = true) :
    wtdFreqFinalize (ws.foldl wtdFreqStep none) =
        some (Dbl.ofInt ((ws.foldl wtdFreqStep none).getD FreqCtx.zero).cnt *
          (((ws.foldl wtdFreqStep none).getD FreqCtx.zero).sumWt /
            Dbl.ofInt ((ws.foldl wtdFreqStep none).getD FreqCtx.zero).cnt)) ∧
      wtdFreqFinalize (ws.foldl wtdFreqStep none) =
        some (Dbl.fin (numericWeightSum ws + otherWeightSum ws)) ∧
      ((∀ v ∈ ws, isNumeric v = false → numericValue v = 0) →
        wtdFreqFinalize (ws.foldl wtdFreqStep none) = some (Dbl.fin (numericWeightSum ws))) := by
  cases ws with
  | nil =>
    obtain ⟨v, hv, _⟩ := h
    simp at hv
  | cons v vs =>
    have hpos : (0 : Int) < ((v :: vs).length : Int) := by
      rw [List.length_cons]
      exact_mod_cast Nat.succ_pos _
    have hne : (((v :: vs).length : Int) : ℚ) ≠ 0 := by
      exact_mod_cast hpos.ne.symm
    have hval : wtdFreqFinalize ((v :: vs).foldl wtdFreqStep none) =
        some (Dbl.fin (numericWeightSum (v :: vs) + otherWeightSum (v :: vs))) := by
      rw [foldl_wtdFreqStep_none, ← freqWeightSum_split]
      simp only [wtdFreqFinalize, gt_iff_lt, if_pos hpos, Dbl.ofInt,
        Dbl.fin_div_fin_of_ne _ hne, Dbl.fin_mul_fin]
      rw [mul_div_cancel₀ _ hne]
    refine ⟨?_, hval, ?_⟩
    · rw [foldl_wtdFreqStep_none]
      simp only [wtdFreqFinalize, gt_iff_lt, if_pos hpos, Option.getD_some]
    · intro hz
      rw [hval, otherWeightSum_eq_zero _ hz, add_zero]

/-- C8, instance: the weights `1, 2, 3, NULL` hold three numeric weights, of
sum `6`, and a NULL, which converts to `0.0`; the result is `6.0`. -/
theorem wtdFreq_result_witness :
    (∃ v ∈ weightsOneTwoThreeNull, isNumeric v = true) ∧
      (∀ v ∈ weightsOneTwoThreeNull, isNumeric v = false → numericValue v = 0) ∧
      numericWeightSum weightsOneTwoThreeNull = 6 ∧
      wtdFreqFinalize (weightsOneTwoThreeNull.foldl wtdFreqStep none) =
        some (Dbl.fin (numericWeightSum weightsOneTwoThreeNull)) ∧
      wtdFreqFinalize (weightsOneTwoThreeNull.foldl wtdFreqStep none) = some (Dbl.fin 6) := by
  have hex : ∃ v ∈ weightsOneTwoThreeNull, isNumeric v = true :=
    ⟨sqlite3_value.integer 1, by decide, by decide⟩
  have hz : ∀ v ∈ weightsOneTwoThreeNull, isNumeric v = false → numericValue v = 0 := by
    intro v hv hnum
    simp only [weightsOneTwoThreeNull, List.mem_cons, List.mem_singleton, List.not_mem_nil,
      or_false] at hv
    rcases hv with rfl | rfl | rfl | rfl
    · exact absurd hnum (by decide)
    · exact absurd hnum (by decide)
    · exact absurd hnum (by decide)
    · rfl
  have hsum : numericWeightSum weightsOneTwoThreeNull = 6 := by
    have hf : weightsOneTwoThreeNull.filter isNumeric =
        [sqlite3_value.integer 1, sqlite3_value.integer 2, sqlite3_value.integer 3] := by
      decide
    rw [numericWeightSum, hf]
    norm_num [freqWeightSum, numericValue]
  have hres := (wtdFreq_result weightsOneTwoThreeNull hex).2.2 hz
  refine ⟨hex, hz, hsum, hres, ?_⟩
  rw [hres, hsum]

/-- C8, as stated, fails: the weights `'12abc', 1` hold one numeric weight,
`1`, and the text is not numeric; `wtdFreqStep` adds the `12.0` the text
converts to, the accumulator ends with `sumWt = 13`, and `wtdFreqFinalize`
returns `13.0`, not the sum `1` of the numeric weights. -/
theorem wtdFreq_text_weight_counterexample :
    (∃ v ∈ weightsTextTwelveOne, isNumeric v = true) ∧
      isNumeric (sqlite3_value.text 12) = false ∧
      numericWeightSum weightsTextTwelveOne = 1 ∧
      weightsTextTwelveOne.foldl wtdFreqStep none = some { sumWt := Dbl.fin 13, cnt := 2 } ∧
      wtdFreqFinalize (weightsTextTwelveOne.foldl wtdFreqStep none) = some (Dbl.fin 13) ∧
      wtdFreqFinalize (weightsTextTwelveOne.foldl wtdFreqStep none) ≠
        some (Dbl.fin (numericWeightSum weightsTextTwelveOne)) := by
  have hsum : numericWeightSum weightsTextTwelveOne = 1 := by
    have hf : weightsTextTwelveOne.filter isNumeric = [sqlite3_value.integer 1] := by
      simp [weightsTextTwelveOne, isNumeric, sqlite3_value_numeric_type, SQLITE_INTEGER,
        SQLITE_FLOAT, SQLITE_TEXT]
    rw [numericWeightSum, hf]
    norm_num [freqWeightSum, numericValue]
  have hfold : weightsTextTwelveOne.foldl wtdFreqStep none =
      some { sumWt := Dbl.fin 13, cnt := 2 } := by
    norm_num [weightsTextTwelveOne, wtdFreqStep, FreqCtx.zero, numericValue,
      sqlite3_value_numeric_type, sqlite3_value_double, SQLITE_INTEGER, SQLITE_TEXT]
  have hres : wtdFreqFinalize (weightsTextTwelveOne.foldl wtdFreqStep none) =
      some (Dbl.fin 13) := by
    rw [hfold]
    norm_num [wtdFreqFinalize, Dbl.ofInt]
  refine ⟨⟨sqlite3_value.integer 1, by simp [weightsTextTwelveOne], by decide⟩, by decide,
    hsum, hfold, hres, ?_⟩
  rw [hres, hsum]
  norm_num

end WtdStats
